import Mathlib

/-
Verification development for `msgspec/inspect.py`: the type-to-IR translator.

The Python module is shallowly embedded as follows:

* Python type descriptors become the inductive `PyType`; the wrappers
  stripped by `_origin_args_metadata` (`Annotated`, `NewType`) are explicit
  constructors, and the concrete origins become the inductive `Norm`.
* Classes (structs, TypedDicts, dataclasses, NamedTuples, enums) are
  identified by a numeric class id; their reflective attributes
  (`__struct_fields__`, `__struct_defaults__`, resolved type hints, ...)
  live in an `Env` mapping class ids to declarations.  `get_type_hints`
  is modelled by the `hints` association list stored in each declaration;
  the translator's `type_hints` dict is a memo of that pure lookup and is
  therefore dropped from the state.
* Python object identity for the mutable object-like IR nodes is modelled
  with an arena: the IR constructor `TypeIR.ref i` is a reference to slot
  `i` of the arena carried in the translator state `TState`, and the
  single permitted mutation (filling in the `fields` tuple of a cached
  placeholder) is an arena-slot update.
* Numeric constraint values (`ge`, `gt`, ... which in Python are ints or
  floats) are modelled as `Int`; `Meta.extra_json_schema` payloads are
  modelled by the JSON value type `JVal` (the effect of
  `_to_builtins(..., str_keys=True)` is assumed already applied); the
  free-form `Meta.extra` dict is an association list over the opaque
  Python-value type `PyVal`.
* All recursion is fuel-guarded (`none` = fuel exhausted, a pure modelling
  artifact); the real code terminates because the per-run cache grows.
* `Literal` types are modelled by their two homogeneous kinds (all-int and
  all-str), matching the declared IR type `Union[Tuple[str, ...],
  Tuple[int, ...]]`; Python's `sorted` is modelled by `List.insertionSort`
  (on a homogeneous list over a total order every correct sort returns the
  same list, so the choice of algorithm is immaterial).
-/

namespace Msgspec

/-- The process-wide `UNSET` sentinel: either no value was supplied, or a
value (possibly `None`) was.  Distinct from every valid value. -/
inductive UnsetOr (α : Type) where
  | unset
  | val (a : α)
deriving DecidableEq, Repr

/-- Opaque model of arbitrary Python runtime values (used for field
defaults and free-form `extra` metadata). -/
inductive PyVal where
  | noneV
  | intV (i : Int)
  | strV (s : String)
  | obj (id : Nat)
deriving DecidableEq, Repr

/-- Struct tag values: `tag` is `str`, `int` or `None` in the source;
the `None` case is `Option.none` around this type. -/
inductive TagVal where
  | str (s : String)
  | int (i : Int)
deriving DecidableEq, Repr

/-- JSON-like values carried in `extra_json_schema` payloads, after
`_to_builtins(..., str_keys=True)` (so dict keys are strings and tuples
have become lists). -/
inductive JVal where
  | jnull
  | jbool (b : Bool)
  | jnum (n : Int)
  | jstr (s : String)
  | jarr (xs : List JVal)
  | jobj (kvs : List (String × JVal))

/-- Lookup in a string-keyed insertion-ordered dict (association list). -/
def slookup {β : Type} : List (String × β) → String → Option β
  | [], _ => none
  | (k', v) :: rest, k => if k' = k then some v else slookup rest k

/-- Python dict assignment `d[k] = v`: replace in place if the key is
present, else append at the end. -/
def sset {β : Type} : List (String × β) → String → β → List (String × β)
  | [], k, v => [(k, v)]
  | (k', v') :: rest, k, v =>
    if k' = k then (k', v) :: rest else (k', v') :: sset rest k v

/-- Python `a.update(b)` for insertion-ordered dicts (shallow). -/
def supdate {β : Type} (a b : List (String × β)) : List (String × β) :=
  b.foldl (fun acc kv => sset acc kv.1 kv.2) a

/-- Lookup in a `Nat`-keyed association list (class-identity keyed dicts). -/
def nlookup {β : Type} : List (Nat × β) → Nat → Option β
  | [], _ => none
  | (k', v) :: rest, k => if k' = k then some v else nlookup rest k

mutual
/-- Per-key combination step of `_merge_json`: dict values merge
recursively, list/tuple values concatenate, anything else is overwritten
by the later value. -/
def mergeJsonVal : JVal → JVal → JVal
  | .jobj a, .jobj b => .jobj (mergeJsonObj a b)
  | .jarr a, .jarr b => .jarr (a ++ b)
  | _, b => b

/-- `_merge_json(a, b)`: fold the items of `b` into `a` in order. -/
def mergeJsonObj (a : List (String × JVal)) : List (String × JVal) → List (String × JVal)
  | [] => a
  | (k, bv) :: rest => mergeJsonObj (mergeJsonKey a k bv) rest

/-- One item of the `_merge_json` loop: if `k` is already present combine
the two values, otherwise insert the new item at the end. -/
def mergeJsonKey (a : List (String × JVal)) (k : String) (bv : JVal) : List (String × JVal) :=
  match slookup a k with
  | some av => sset a k (mergeJsonVal av bv)
  | none => a ++ [(k, bv)]
end

/-- A `msgspec.Meta` constraint-metadata annotation.  Only annotations of
this exact shape are collected by `_origin_args_metadata`; others are
ignored and hence not modelled. -/
structure MetaAnn where
  ge : Option Int := none
  gt : Option Int := none
  le : Option Int := none
  lt : Option Int := none
  multiple_of : Option Int := none
  pattern : Option String := none
  min_length : Option Int := none
  max_length : Option Int := none
  tz : Option Bool := none
  title : Option String := none
  description : Option String := none
  examples : Option (List JVal) := none
  extra_json_schema : Option (List (String × JVal)) := none
  extra : Option (List (String × PyVal)) := none

/-- The `constrs` keyword dict accumulated in `_Translator.translate`. -/
structure Constrs where
  ge : Option Int := none
  gt : Option Int := none
  le : Option Int := none
  lt : Option Int := none
  multiple_of : Option Int := none
  pattern : Option String := none
  min_length : Option Int := none
  max_length : Option Int := none
  tz : Option Bool := none
deriving DecidableEq, Repr

/-- `constrs[attr] = val` if `val` is not `None`: a later annotation's
attribute overrides an earlier one, an absent attribute keeps it. -/
def metaOverride {α : Type} (new old : Option α) : Option α :=
  match new with
  | some v => some v
  | none => old

/-- Fold one `Meta` annotation into the accumulated constraint dict. -/
def applyMetaConstrs (cs : Constrs) (m : MetaAnn) : Constrs where
  ge := metaOverride m.ge cs.ge
  gt := metaOverride m.gt cs.gt
  le := metaOverride m.le cs.le
  lt := metaOverride m.lt cs.lt
  multiple_of := metaOverride m.multiple_of cs.multiple_of
  pattern := metaOverride m.pattern cs.pattern
  min_length := metaOverride m.min_length cs.min_length
  max_length := metaOverride m.max_length cs.max_length
  tz := metaOverride m.tz cs.tz

/-- The constraint-extraction loop of `_Translator.translate`. -/
def foldConstrs (metas : List MetaAnn) : Constrs :=
  metas.foldl applyMetaConstrs {}

/-- Fold one `Meta` annotation into the accumulated
(`extra_json_schema`, `extra`) pair: first the recognized
title/description/examples attributes (plain dict sets), then the
explicit `extra_json_schema` dict (deep merge via `_merge_json`), then
the free-form `extra` dict (shallow `update`). -/
def applyMetaExtras (acc : List (String × JVal) × List (String × PyVal)) (m : MetaAnn) :
    List (String × JVal) × List (String × PyVal) :=
  let ejs := acc.1
  let ejs := match m.title with
    | some v => sset ejs "title" (.jstr v)
    | none => ejs
  let ejs := match m.description with
    | some v => sset ejs "description" (.jstr v)
    | none => ejs
  let ejs := match m.examples with
    | some v => sset ejs "examples" (.jarr v)
    | none => ejs
  let ejs := match m.extra_json_schema with
    | some d => mergeJsonObj ejs d
    | none => ejs
  let ex := match m.extra with
    | some d => supdate acc.2 d
    | none => acc.2
  (ejs, ex)

/-- The extra-payload accumulation loop of `_Translator.translate`. -/
def foldMetaExtras (metas : List MetaAnn) :
    List (String × JVal) × List (String × PyVal) :=
  metas.foldl applyMetaExtras ([], [])

/-- `d or None`: an empty accumulated dict is stored as `None`, never as
an empty dict. -/
def toOptList {α : Type} : List α → Option (List α)
  | [] => none
  | l => some l

mutual
/-- Python type descriptors as seen by `_Translator.translate`, after the
`_CONCRETE_TYPES` / `__origin__` canonicalization baked into the
constructors.  `annotated` and `newtype` are the wrapper layers stripped
by `_origin_args_metadata`; `classT` refers to a class in the `Env`
(an unknown class id plays the role of an arbitrary unrecognized object,
which falls through to `CustomType`). -/
inductive PyType where
  | annotated (t : PyType) (metas : List MetaAnn)
  | newtype (t : PyType)
  | anyT
  | noneT
  | boolT
  | intT
  | floatT
  | strT
  | bytesT
  | bytearrayT
  | datetimeT
  | timeT
  | dateT
  | uuidT
  | decimalT
  | rawT
  | extT
  | listT (arg : Option PyType)
  | setT (arg : Option PyType)
  | frozensetT (arg : Option PyType)
  | tupleT (args : Option (List TupArg))
  | dictT (args : Option (PyType × PyType))
  | unionT (args : List PyType)
  | litIntT (vals : List Int)
  | litStrT (vals : List String)
  | classT (c : Nat)

/-- An argument of a `tuple[...]` subscription: a type, the `...`
(Ellipsis) marker, or the empty-tuple `()` argument. -/
inductive TupArg where
  | ty (t : PyType)
  | ellipsis
  | unit
end

/-- The canonical origin marker plus arguments produced by
`_origin_args_metadata` (its first two components fused: the argument
list of each origin is carried inside the marker). -/
inductive Norm where
  | anyN
  | noneN
  | boolN
  | intN
  | floatN
  | strN
  | bytesN
  | bytearrayN
  | datetimeN
  | timeN
  | dateN
  | uuidN
  | decimalN
  | rawN
  | extN
  | listN (arg : Option PyType)
  | setN (arg : Option PyType)
  | frozensetN (arg : Option PyType)
  | tupleN (args : Option (List TupArg))
  | dictN (args : Option (PyType × PyType))
  | unionN (args : List PyType)
  | litIntN (vals : List Int)
  | litStrN (vals : List String)
  | classN (c : Nat)

/-- `_origin_args_metadata`: iteratively strip `NewType` aliases and
`Annotated` wrappers, collecting the `Meta` annotations outermost first,
then map the remaining concrete type to its canonical origin marker with
its arguments. -/
def originArgsMetadata : PyType → Norm × List MetaAnn
  | .annotated t ms =>
    let r := originArgsMetadata t
    (r.1, ms ++ r.2)
  | .newtype t => originArgsMetadata t
  | .anyT => (.anyN, [])
  | .noneT => (.noneN, [])
  | .boolT => (.boolN, [])
  | .intT => (.intN, [])
  | .floatT => (.floatN, [])
  | .strT => (.strN, [])
  | .bytesT => (.bytesN, [])
  | .bytearrayT => (.bytearrayN, [])
  | .datetimeT => (.datetimeN, [])
  | .timeT => (.timeN, [])
  | .dateT => (.dateN, [])
  | .uuidT => (.uuidN, [])
  | .decimalT => (.decimalN, [])
  | .rawT => (.rawN, [])
  | .extT => (.extN, [])
  | .listT a => (.listN a, [])
  | .setT a => (.setN a, [])
  | .frozensetT a => (.frozensetN a, [])
  | .tupleT a => (.tupleN a, [])
  | .dictT a => (.dictN a, [])
  | .unionT a => (.unionN a, [])
  | .litIntT vs => (.litIntN vs, [])
  | .litStrT vs => (.litStrN vs, [])
  | .classT c => (.classN c, [])

/-- A default-value slot of a struct field: the `_nodefault` sentinel, a
`Factory` wrapper holding a callable (identified by a `Nat`), or a plain
default value. -/
inductive DefaultObj where
  | nodefault
  | factory (fid : Nat)
  | value (v : PyVal)
deriving DecidableEq, Repr

/-- Reflective attributes of a `msgspec.Struct` class consumed by the
struct arm of `_translate_inner`.  `hints` models the (memoized) result
of `get_type_hints`. -/
structure StructClass where
  struct_fields : List String
  struct_encode_fields : List String
  struct_defaults : List DefaultObj
  hints : List (String × PyType)
  struct_tag_field : Option String
  struct_tag : Option TagVal
  array_like : Bool
  forbid_unknown_fields : Bool

/-- Reflective attributes of a `TypedDict` class: resolved hints, the
`__required_keys__` set if present, and the `__total__` flag. -/
structure TypedDictClass where
  hints : List (String × PyType)
  required_keys : Option (List String)
  total : Bool

/-- One entry of `dataclasses.fields(t)`: `none` models
`dataclasses.MISSING`. -/
structure DataclassField where
  name : String
  default : Option PyVal
  default_factory : Option Nat

/-- Reflective attributes of a dataclass. -/
structure DataclassClass where
  dcfields : List DataclassField
  hints : List (String × PyType)

/-- Reflective attributes of a `NamedTuple` class: `_fields`,
`_field_defaults` and the resolved hints. -/
structure NamedTupleClass where
  nt_fields : List String
  field_defaults : List (String × PyVal)
  hints : List (String × PyType)

/-- The kind and reflective data of a class, as discriminated by
`_is_enum` / `_is_struct` / `_is_typeddict` / `_is_dataclass` /
`_is_namedtuple` (the kinds are disjoint here, so the dispatch order of
the source is immaterial). -/
inductive ClassDecl where
  | enumDecl
  | structDecl (d : StructClass)
  | typeddictDecl (d : TypedDictClass)
  | dataclassDecl (d : DataclassClass)
  | namedtupleDecl (d : NamedTupleClass)

/-- The read-only external class environment for one run. -/
abbrev Env := List (Nat × ClassDecl)

/-- The Type IR, with object-like nodes represented by arena references
(`ref i`), modelling Python heap references to the four mutable
object-like node classes. -/
inductive TypeIR where
  | metadataIR (type : TypeIR) (extra_json_schema : Option (List (String × JVal)))
      (extra : Option (List (String × PyVal)))
  | anyIR
  | noneIR
  | boolIR
  | intIR (gt ge lt le multiple_of : Option Int)
  | floatIR (gt ge lt le multiple_of : Option Int)
  | strIR (min_length max_length : Option Int) (pattern : Option String)
  | bytesIR (min_length max_length : Option Int)
  | bytearrayIR (min_length max_length : Option Int)
  | datetimeIR (tz : Option Bool)
  | timeIR (tz : Option Bool)
  | dateIR
  | uuidIR
  | decimalIR
  | rawIR
  | extIR
  | enumIR (cls : Nat)
  | litIntIR (values : List Int)
  | litStrIR (values : List String)
  | customIR (cls : Nat)
  | unionIR (types : List TypeIR)
  | listIR (item_type : TypeIR) (min_length max_length : Option Int)
  | setIR (item_type : TypeIR) (min_length max_length : Option Int)
  | frozensetIR (item_type : TypeIR) (min_length max_length : Option Int)
  | vartupleIR (item_type : TypeIR) (min_length max_length : Option Int)
  | tupleIR (item_types : List TypeIR)
  | dictIR (key_type value_type : TypeIR) (min_length max_length : Option Int)
  | ref (i : Nat)

/-- The `Field` record of the IR. -/
structure Field where
  name : String
  encode_name : String
  type : TypeIR
  required : Bool
  default : UnsetOr PyVal
  default_factory : UnsetOr Nat

/-- The kind-specific payload of an object-like node; the struct kind
additionally carries `tag_field`, `tag`, `array_like`,
`forbid_unknown_fields`. -/
inductive ObjData where
  | structD (tag_field : Option String) (tag : Option TagVal)
      (array_like forbid_unknown_fields : Bool)
  | typeddictD
  | dataclassD
  | namedtupleD

/-- An arena slot: one of the four object-like IR nodes
(`StructType` / `TypedDictType` / `DataclassType` / `NamedTupleType`),
whose `fields` tuple is mutated exactly once after creation. -/
structure ObjNode where
  cls : Nat
  data : ObjData
  fields : List Field

/-- The per-run mutable state of `_Translator`: the object-node cache
keyed by class identity, and the arena of object-like nodes it points
into. -/
structure TState where
  cache : List (Nat × Nat)
  arena : List ObjNode

/-- Everything of a `Field` except its translated type: the per-field
data each object-like arm of `_translate_inner` computes reflectively
before recursively translating the field's declared type. -/
structure FieldSkel where
  name : String
  encode_name : String
  type : PyType
  required : Bool
  default : UnsetOr PyVal
  default_factory : UnsetOr Nat

/-- Python `zip` over three sequences (stops at the shortest). -/
def zip3 {α β γ : Type} : List α → List β → List γ → List (α × β × γ)
  | a :: as, b :: bs, c :: cs => (a, b, c) :: zip3 as bs cs
  | _, _, _ => []

/-- The body of the struct arm's field loop: for each
(name, encode-name, default-slot) triple, look the declared type up in
the hints and apply the required/default/default-factory resolution.
A missing hint is the `KeyError` of `hints[name]`, which aborts the
run. -/
def mkStructSkel (hints : List (String × PyType)) :
    List (String × String × DefaultObj) → Option (List FieldSkel)
  | [] => some []
  | (name, enc, dob) :: rest =>
    match slookup hints name with
    | none => none
    | some ty =>
      match mkStructSkel hints rest with
      | none => none
      | some out =>
        match dob with
        | .nodefault => some (⟨name, enc, ty, true, .unset, .unset⟩ :: out)
        | .factory fid => some (⟨name, enc, ty, false, .unset, .val fid⟩ :: out)
        | .value v => some (⟨name, enc, ty, false, .val v, .unset⟩ :: out)

/-- The struct arm's field zip: `npos` positional fields get the
`_nodefault` sentinel, the trailing fields get `__struct_defaults__`. -/
def structFieldSkel (d : StructClass) : Option (List FieldSkel) :=
  let npos := d.struct_fields.length - d.struct_defaults.length
  mkStructSkel d.hints
    (zip3 d.struct_fields d.struct_encode_fields
      (List.replicate npos DefaultObj.nodefault ++ d.struct_defaults))

instance : DecidableRel (fun a b : String × PyType => a.1 ≤ b.1) :=
  fun a b => inferInstanceAs (Decidable (a.1 ≤ b.1))

/-- The TypedDict arm: fields are built from `sorted(hints.items())`
(hint names are unique, so Python's stable tuple sort is a sort by
name), every field's encode name is its name, required follows
`__required_keys__` when present and else the `__total__` flag, and no
defaults are ever set. -/
def typeddictFieldSkel (d : TypedDictClass) : List FieldSkel :=
  let required : List String :=
    match d.required_keys with
    | some ks => ks
    | none => if d.total then d.hints.map Prod.fst else []
  (List.insertionSort (fun a b : String × PyType => a.1 ≤ b.1) d.hints).map
    (fun nt => ⟨nt.1, nt.1, nt.2, decide (nt.1 ∈ required), .unset, .unset⟩)

/-- The dataclass arm's field loop over `dataclasses.fields(t)`:
required iff both `default` and `default_factory` are `MISSING`. -/
def mkDataclassSkel (hints : List (String × PyType)) :
    List DataclassField → Option (List FieldSkel)
  | [] => some []
  | f :: rest =>
    match slookup hints f.name with
    | none => none
    | some ty =>
      match mkDataclassSkel hints rest with
      | none => none
      | some out =>
        some (⟨f.name, f.name, ty, f.default.isNone && f.default_factory.isNone,
          (match f.default with
           | some v => .val v
           | none => .unset),
          (match f.default_factory with
           | some g => .val g
           | none => .unset)⟩ :: out)

/-- Field skeletons of a dataclass. -/
def dataclassFieldSkel (d : DataclassClass) : Option (List FieldSkel) :=
  mkDataclassSkel d.hints d.dcfields

/-- The NamedTuple arm: iterate `_fields`, defaulting a missing hint to
`Any` (`hints.get(name, Any)`), required iff the name is not in
`_field_defaults`, and `default_factory` never set. -/
def namedtupleFieldSkel (d : NamedTupleClass) : List FieldSkel :=
  d.nt_fields.map (fun name =>
    ⟨name, name,
     (match slookup d.hints name with
      | some ty => ty
      | none => .anyT),
     (slookup d.field_defaults name).isNone,
     (match slookup d.field_defaults name with
      | some v => .val v
      | none => .unset),
     .unset⟩)

/-- The "annoying compatibility issue" normalization of the tuple arm:
`Tuple[()]` has `args == ((),)` and is rewritten to the empty argument
list, the spelling `tuple[()]` already arrives as `()`. -/
def tupleNorm : Option (List TupArg) → Option (List TupArg)
  | some [TupArg.unit] => some []
  | a => a

/-- Class id standing for the `Ellipsis` object when it reaches
`CustomType` (a non-type argument falls through the dispatch). -/
def ellipsisClassId : Nat := 1000000001

/-- Class id standing for the `()` object when it reaches `CustomType`. -/
def emptyTupleClassId : Nat := 1000000002

mutual
/-- `_Translator.translate`: normalize the descriptor, merge the `Meta`
annotations into constraints and extra payloads, translate the inner
type, and wrap the result in a `Metadata` node iff at least one
accumulated extra payload is non-empty (an absent payload is stored as
`None`, never as an empty dict). -/
def translate (env : Env) : Nat → TState → PyType → Option (TypeIR × TState)
  | 0, _, _ => none
  | Nat.succ f, σ, t =>
    let r := originArgsMetadata t
    let cs := foldConstrs r.2
    let ee := foldMetaExtras r.2
    match translateInner env f σ r.1 cs with
    | none => none
    | some (out, σ') =>
      match ee.1, ee.2 with
      | [], [] => some (out, σ')
      | ejs, ex => some (.metadataIR out (toOptList ejs) (toOptList ex), σ')

/-- `_Translator._translate_inner`: dispatch on the canonical origin
marker.  Constraints irrelevant to the matched arm are silently
discarded. -/
def translateInner (env : Env) : Nat → TState → Norm → Constrs → Option (TypeIR × TState)
  | 0, _, _, _ => none
  | Nat.succ f, σ, h, cs =>
    match h with
    | .anyN => some (.anyIR, σ)
    | .noneN => some (.noneIR, σ)
    | .boolN => some (.boolIR, σ)
    | .intN => some (.intIR cs.gt cs.ge cs.lt cs.le cs.multiple_of, σ)
    | .floatN => some (.floatIR cs.gt cs.ge cs.lt cs.le cs.multiple_of, σ)
    | .strN => some (.strIR cs.min_length cs.max_length cs.pattern, σ)
    | .bytesN => some (.bytesIR cs.min_length cs.max_length, σ)
    | .bytearrayN => some (.bytearrayIR cs.min_length cs.max_length, σ)
    | .datetimeN => some (.datetimeIR cs.tz, σ)
    | .timeN => some (.timeIR cs.tz, σ)
    | .dateN => some (.dateIR, σ)
    | .uuidN => some (.uuidIR, σ)
    | .decimalN => some (.decimalIR, σ)
    | .rawN => some (.rawIR, σ)
    | .extN => some (.extIR, σ)
    | .listN arg =>
      match translateOptArg env f σ arg with
      | none => none
      | some (it, σ') => some (.listIR it cs.min_length cs.max_length, σ')
    | .setN arg =>
      match translateOptArg env f σ arg with
      | none => none
      | some (it, σ') => some (.setIR it cs.min_length cs.max_length, σ')
    | .frozensetN arg =>
      match translateOptArg env f σ arg with
      | none => none
      | some (it, σ') => some (.frozensetIR it cs.min_length cs.max_length, σ')
    | .tupleN args0 =>
      match tupleNorm args0 with
      | none => some (.vartupleIR .anyIR cs.min_length cs.max_length, σ)
      | some [a, .ellipsis] =>
        match translateTupArg env f σ a with
        | none => none
        | some (it, σ') => some (.vartupleIR it cs.min_length cs.max_length, σ')
      | some l =>
        match translateTupList env f σ l with
        | none => none
        | some (its, σ') => some (.tupleIR its, σ')
    | .dictN args =>
      match args with
      | none => some (.dictIR .anyIR .anyIR cs.min_length cs.max_length, σ)
      | some (k, v) =>
        match translate env f σ k with
        | none => none
        | some (kt, σ₁) =>
          match translate env f σ₁ v with
          | none => none
          | some (vt, σ₂) => some (.dictIR kt vt cs.min_length cs.max_length, σ₂)
    | .unionN args =>
      match translateList env f σ args with
      | none => none
      | some (ts, σ') => some (.unionIR ts, σ')
    | .litIntN vals =>
      some (.litIntIR (List.insertionSort (fun a b : Int => a ≤ b) vals), σ)
    | .litStrN vals =>
      some (.litStrIR (List.insertionSort (fun a b : String => a ≤ b) vals), σ)
    | .classN c =>
      match nlookup env c with
      | some .enumDecl => some (.enumIR c, σ)
      | some (.structDecl d) =>
        match structFieldSkel d with
        | none => none
        | some skel =>
          translateObj env f σ c
            (.structD d.struct_tag_field d.struct_tag d.array_like d.forbid_unknown_fields)
            skel
      | some (.typeddictDecl d) =>
        translateObj env f σ c .typeddictD (typeddictFieldSkel d)
      | some (.dataclassDecl d) =>
        match dataclassFieldSkel d with
        | none => none
        | some skel => translateObj env f σ c .dataclassD skel
      | some (.namedtupleDecl d) =>
        translateObj env f σ c .namedtupleD (namedtupleFieldSkel d)
      | none => some (.customIR c, σ)

/-- The shared cache/placeholder pattern of the four object-like arms:
on a cache hit return the cached node (same object); otherwise register
a placeholder node with an empty field list in the cache keyed by class
identity *before* recursing into the field types, then mutate the
placeholder's field list once to the completed list and return it. -/
def translateObj (env : Env) : Nat → TState → Nat → ObjData → List FieldSkel →
    Option (TypeIR × TState)
  | 0, _, _, _, _ => none
  | Nat.succ f, σ, c, data, skel =>
    match nlookup σ.cache c with
    | some i => some (.ref i, σ)
    | none =>
      let i := σ.arena.length
      let σ₁ : TState := ⟨(c, i) :: σ.cache, σ.arena ++ [⟨c, data, []⟩]⟩
      match translateFields env f σ₁ skel with
      | none => none
      | some (flds, σ₂) =>
        some (.ref i, ⟨σ₂.cache, σ₂.arena.set i ⟨c, data, flds⟩⟩)

/-- The field loop shared by the object-like arms: translate each
field's declared type with the threaded state and build the `Field`
records in declaration order. -/
def translateFields (env : Env) : Nat → TState → List FieldSkel →
    Option (List Field × TState)
  | 0, _, _ => none
  | Nat.succ _, σ, [] => some ([], σ)
  | Nat.succ f, σ, fs :: rest =>
    match translate env f σ fs.type with
    | none => none
    | some (ir, σ') =>
      match translateFields env f σ' rest with
      | none => none
      | some (flds, σ'') =>
        some (⟨fs.name, fs.encode_name, ir, fs.required, fs.default,
          fs.default_factory⟩ :: flds, σ'')

/-- Sequential translation of a list of types with threaded state
(the generator expressions of the union arm and of `run`). -/
def translateList (env : Env) : Nat → TState → List PyType →
    Option (List TypeIR × TState)
  | 0, _, _ => none
  | Nat.succ _, σ, [] => some ([], σ)
  | Nat.succ f, σ, t :: rest =>
    match translate env f σ t with
    | none => none
    | some (ir, σ') =>
      match translateList env f σ' rest with
      | none => none
      | some (irs, σ'') => some (ir :: irs, σ'')

/-- `self.translate(args[0]) if args else AnyType()`. -/
def translateOptArg (env : Env) : Nat → TState → Option PyType →
    Option (TypeIR × TState)
  | 0, _, _ => none
  | Nat.succ f, σ, arg =>
    match arg with
    | some a => translate env f σ a
    | none => some (.anyIR, σ)

/-- Translation of one `tuple[...]` argument; the non-type arguments
fall through the dispatch to `CustomType`. -/
def translateTupArg (env : Env) : Nat → TState → TupArg →
    Option (TypeIR × TState)
  | 0, _, _ => none
  | Nat.succ f, σ, a =>
    match a with
    | .ty t => translate env f σ t
    | .ellipsis => some (.customIR ellipsisClassId, σ)
    | .unit => some (.customIR emptyTupleClassId, σ)

/-- Sequential translation of the arguments of a fixed-arity tuple. -/
def translateTupList (env : Env) : Nat → TState → List TupArg →
    Option (List TypeIR × TState)
  | 0, _, _ => none
  | Nat.succ _, σ, [] => some ([], σ)
  | Nat.succ f, σ, a :: rest =>
    match translateTupArg env f σ a with
    | none => none
    | some (ir, σ') =>
      match translateTupList env f σ' rest with
      | none => none
      | some (irs, σ'') => some (ir :: irs, σ'')
end

/-- The protocol selector: `None`, `"msgpack"`, `"json"`, or anything
else (which is rejected). -/
inductive ProtoSel where
  | noneP
  | msgpackP
  | jsonP
  | other (s : String)

/-- The decoder family chosen by `run`. -/
inductive DecKind where
  | msgpackDec
  | jsonDec
deriving DecidableEq

/-- `run`'s decoder selection: `None` and `"msgpack"` use
`MsgpackDecoder`, `"json"` uses `JSONDecoder`, anything else raises
`ValueError`. -/
def protocolDecoder : ProtoSel → Option DecKind
  | .noneP => some .msgpackDec
  | .msgpackP => some .msgpackDec
  | .jsonP => some .jsonDec
  | .other _ => none

/-- Modelled from the spec: the external codec-construction subsystem's
notion of a type with a string representation usable as a JSON object
key ("a map keyed by a type with no string representation under a
protocol whose container keys must be strings" is unsupported).  The
decoder itself lives in the C extension `_core`, outside `src/`. -/
def jsonKeyOK : PyType → Bool
  | .annotated t _ => jsonKeyOK t
  | .newtype t => jsonKeyOK t
  | .strT => true
  | .intT => true
  | .uuidT => true
  | .datetimeT => true
  | .dateT => true
  | .timeT => true
  | .decimalT => true
  | .litIntT _ => true
  | .litStrT _ => true
  | _ => false

mutual
/-- Modelled from the spec: success of constructing a decoder for a
type under a decoder family.  Under the JSON family a dict key type
must be string-representable; the check recurses into contained types
(class-field recursion is elided: the gate's observable here is only
success or failure on the shapes the claims exercise). -/
def typeSupported (dec : DecKind) : PyType → Bool
  | .annotated t _ => typeSupported dec t
  | .newtype t => typeSupported dec t
  | .listT arg => optSupported dec arg
  | .setT arg => optSupported dec arg
  | .frozensetT arg => optSupported dec arg
  | .tupleT args => tupArgsSupported dec args
  | .dictT args =>
    match args with
    | none => true
    | some (k, v) =>
      (match dec with
       | .jsonDec => jsonKeyOK k
       | .msgpackDec => true) && typeSupported dec k && typeSupported dec v
  | .unionT args => listSupported dec args
  | _ => true

/-- Supportedness of an optional single type argument. -/
def optSupported (dec : DecKind) : Option PyType → Bool
  | none => true
  | some t => typeSupported dec t

/-- Supportedness of a list of member types. -/
def listSupported (dec : DecKind) : List PyType → Bool
  | [] => true
  | t :: rest => typeSupported dec t && listSupported dec rest

/-- Supportedness of the arguments of a tuple subscription. -/
def tupArgsSupported (dec : DecKind) : Option (List TupArg) → Bool
  | none => true
  | some l => tupArgListSupported dec l

/-- Supportedness of one tuple argument. -/
def tupArgSupported (dec : DecKind) : TupArg → Bool
  | .ty t => typeSupported dec t
  | _ => true

/-- Supportedness of a list of tuple arguments. -/
def tupArgListSupported (dec : DecKind) : List TupArg → Bool
  | [] => true
  | a :: rest => tupArgSupported dec a && tupArgListSupported dec rest
end

/-- Modelled from the spec: `Decoder(Tuple[self.types])` — constructing
a decoder for the synthetic fixed-arity aggregate of all root types
succeeds iff every root type is supported under the chosen decoder
family (the synthetic tuple wrapper itself is always supported). -/
def decoderOK (dec : DecKind) (types : List PyType) : Bool :=
  types.all (typeSupported dec)

/-- The outcome of `multi_type_info`: the `ValueError` for an invalid
protocol selector, the unsupported-type error raised by decoder
construction, or the tuple of IR nodes (with the arena they point
into, which in Python is the heap). -/
inductive MTIResult where
  | invalidProtocol
  | unsupported
  | ok (irs : List TypeIR) (σ : TState)

/-- `multi_type_info` (via `_Translator.run`): choose the decoder
family, run the protocol compatibility gate once for the whole batch,
and only then translate every root type with one shared translator
state. -/
def multi_type_info (env : Env) (fuel : Nat) (types : List PyType)
    (protocol : ProtoSel) : Option MTIResult :=
  match protocolDecoder protocol with
  | none => some .invalidProtocol
  | some dec =>
    if decoderOK dec types then
      match translateList env fuel ⟨[], []⟩ types with
      | none => none
      | some (irs, σ) => some (.ok irs σ)
    else some .unsupported

/-- The outcome of `type_info`. -/
inductive TIResult where
  | invalidProtocol
  | unsupported
  | ok (ir : TypeIR) (σ : TState)

/-- `type_info`: call the batch entry point with a one-element list and
unwrap the sole element (`multi_type_info([type], protocol=protocol)[0]`). -/
def type_info (env : Env) (fuel : Nat) (t : PyType) (protocol : ProtoSel) :
    Option TIResult :=
  match multi_type_info env fuel [t] protocol with
  | none => none
  | some .invalidProtocol => some .invalidProtocol
  | some .unsupported => some .unsupported
  | some (.ok irs σ) =>
    match irs[0]? with
    | some ir => some (.ok ir σ)
    | none => none

/-- `isinstance(t, NoneType)` over the IR: only the `NoneType` node
itself is an instance (a `Metadata` wrapper is not). -/
def isNoneTypeIR : TypeIR → Bool
  | .noneIR => true
  | _ => false

/-- `UnionType.includes_none`: `any(isinstance(t, NoneType) for t in
self.types)`. -/
def includes_none (types : List TypeIR) : Bool :=
  types.any isNoneTypeIR

/-- The non-type data of a `Field` (everything but the translated field
type). -/
structure FInfo where
  name : String
  encode_name : String
  required : Bool
  default : UnsetOr PyVal
  default_factory : UnsetOr Nat
deriving DecidableEq, Repr

/-- The field data of a `Field`. -/
def Field.info (f : Field) : FInfo :=
  ⟨f.name, f.encode_name, f.required, f.default, f.default_factory⟩

/-- Pure observation trees: the value of an IR node observed through the
arena up to a chosen class-unfolding depth.  `truncPT` marks where the
depth ran out at an arena reference; `badrefPT` marks a dangling
reference (never produced by the translator).  Two rooted IR graphs are
observationally identical (Python structural equality, well-defined
through cycles) iff their trees agree at every depth. -/
inductive PTree where
  | truncPT
  | badrefPT
  | metadataPT (type : PTree) (extra_json_schema : Option (List (String × JVal)))
      (extra : Option (List (String × PyVal)))
  | anyPT
  | nonePT
  | boolPT
  | intPT (gt ge lt le multiple_of : Option Int)
  | floatPT (gt ge lt le multiple_of : Option Int)
  | strPT (min_length max_length : Option Int) (pattern : Option String)
  | bytesPT (min_length max_length : Option Int)
  | bytearrayPT (min_length max_length : Option Int)
  | datetimePT (tz : Option Bool)
  | timePT (tz : Option Bool)
  | datePT
  | uuidPT
  | decimalPT
  | rawPT
  | extPT
  | enumPT (cls : Nat)
  | litIntPT (values : List Int)
  | litStrPT (values : List String)
  | customPT (cls : Nat)
  | unionPT (types : List PTree)
  | listPT (item_type : PTree) (min_length max_length : Option Int)
  | setPT (item_type : PTree) (min_length max_length : Option Int)
  | frozensetPT (item_type : PTree) (min_length max_length : Option Int)
  | vartuplePT (item_type : PTree) (min_length max_length : Option Int)
  | tuplePT (item_types : List PTree)
  | dictPT (key_type value_type : PTree) (min_length max_length : Option Int)
  | objPT (cls : Nat) (data : ObjData) (fields : List (FInfo × PTree))

mutual
/-- Unfold an IR node through the arena, spending one unit of depth at
every arena reference. -/
def unfoldIR (A : List ObjNode) : Nat → TypeIR → PTree
  | n, .ref i =>
    match n with
    | 0 => .truncPT
    | Nat.succ m =>
      match A[i]? with
      | none => .badrefPT
      | some nd => .objPT nd.cls nd.data (unfoldFieldList A m nd.fields)
  | n, .metadataIR t e x => .metadataPT (unfoldIR A n t) e x
  | _, .anyIR => .anyPT
  | _, .noneIR => .nonePT
  | _, .boolIR => .boolPT
  | _, .intIR a b c d e => .intPT a b c d e
  | _, .floatIR a b c d e => .floatPT a b c d e
  | _, .strIR a b c => .strPT a b c
  | _, .bytesIR a b => .bytesPT a b
  | _, .bytearrayIR a b => .bytearrayPT a b
  | _, .datetimeIR a => .datetimePT a
  | _, .timeIR a => .timePT a
  | _, .dateIR => .datePT
  | _, .uuidIR => .uuidPT
  | _, .decimalIR => .decimalPT
  | _, .rawIR => .rawPT
  | _, .extIR => .extPT
  | _, .enumIR c => .enumPT c
  | _, .litIntIR vs => .litIntPT vs
  | _, .litStrIR vs => .litStrPT vs
  | _, .customIR c => .customPT c
  | n, .unionIR ts => .unionPT (unfoldIRList A n ts)
  | n, .listIR it a b => .listPT (unfoldIR A n it) a b
  | n, .setIR it a b => .setPT (unfoldIR A n it) a b
  | n, .frozensetIR it a b => .frozensetPT (unfoldIR A n it) a b
  | n, .vartupleIR it a b => .vartuplePT (unfoldIR A n it) a b
  | n, .tupleIR ts => .tuplePT (unfoldIRList A n ts)
  | n, .dictIR k v a b => .dictPT (unfoldIR A n k) (unfoldIR A n v) a b
termination_by n t => (n, sizeOf t)

/-- Unfold a list of IR nodes at the same depth. -/
def unfoldIRList (A : List ObjNode) : Nat → List TypeIR → List PTree
  | _, [] => []
  | n, t :: ts => unfoldIR A n t :: unfoldIRList A n ts
termination_by n ts => (n, sizeOf ts)

/-- Unfold the fields of an object node at the same depth. -/
def unfoldFieldList (A : List ObjNode) : Nat → List Field → List (FInfo × PTree)
  | _, [] => []
  | n, ⟨nm, en, ty, rq, df, dff⟩ :: fs =>
    (⟨nm, en, rq, df, dff⟩, unfoldIR A n ty) :: unfoldFieldList A n fs
termination_by n fs => (n, sizeOf fs)
end

/-- The object-node payload and field skeleton determined by a class
declaration, when the class is one of the four object-like kinds and
its reflective field data resolves. -/
def declData : ClassDecl → Option (ObjData × List FieldSkel)
  | .enumDecl => none
  | .structDecl d =>
    match structFieldSkel d with
    | none => none
    | some sk =>
      some (.structD d.struct_tag_field d.struct_tag d.array_like d.forbid_unknown_fields, sk)
  | .typeddictDecl d => some (.typeddictD, typeddictFieldSkel d)
  | .dataclassDecl d =>
    match dataclassFieldSkel d with
    | none => none
    | some sk => some (.dataclassD, sk)
  | .namedtupleDecl d => some (.namedtupleD, namedtupleFieldSkel d)

/-- The index of the one-level match relation `IRM`: which translator
function's input/output pair is being related. -/
inductive MatchIx where
  | one (ir : TypeIR) (t : PyType)
  | inner (ir : TypeIR) (h : Norm) (cs : Constrs)
  | many (irs : List TypeIR) (ts : List PyType)
  | oneOpt (ir : TypeIR) (arg : Option PyType)
  | oneTup (ir : TypeIR) (a : TupArg)
  | manyTup (irs : List TypeIR) (tas : List TupArg)

/-- One-level characterization of the translator's output: `ir` is the
IR the translator produces for `t` when every object-like class already
cached resolves through `cache`.  Object-like classes appear only as
`ref` nodes through the cache, so the relation is finitary even for
cyclic class graphs. -/
inductive IRM (env : Env) (cache : List (Nat × Nat)) : MatchIx → Prop where
  | bareM {out : TypeIR} {t : PyType} :
      IRM env cache (.inner out (originArgsMetadata t).1 (foldConstrs (originArgsMetadata t).2)) →
      foldMetaExtras (originArgsMetadata t).2 = ([], []) →
      IRM env cache (.one out t)
  | wrapM {out : TypeIR} {t : PyType} {ejs : List (String × JVal)} {ex : List (String × PyVal)} :
      IRM env cache (.inner out (originArgsMetadata t).1 (foldConstrs (originArgsMetadata t).2)) →
      foldMetaExtras (originArgsMetadata t).2 = (ejs, ex) →
      (ejs, ex) ≠ ([], []) →
      IRM env cache (.one (.metadataIR out (toOptList ejs) (toOptList ex)) t)
  | anyM {cs : Constrs} : IRM env cache (.inner .anyIR .anyN cs)
  | noneM {cs : Constrs} : IRM env cache (.inner .noneIR .noneN cs)
  | boolM {cs : Constrs} : IRM env cache (.inner .boolIR .boolN cs)
  | intM {cs : Constrs} :
      IRM env cache (.inner (.intIR cs.gt cs.ge cs.lt cs.le cs.multiple_of) .intN cs)
  | floatM {cs : Constrs} :
      IRM env cache (.inner (.floatIR cs.gt cs.ge cs.lt cs.le cs.multiple_of) .floatN cs)
  | strM {cs : Constrs} :
      IRM env cache (.inner (.strIR cs.min_length cs.max_length cs.pattern) .strN cs)
  | bytesM {cs : Constrs} :
      IRM env cache (.inner (.bytesIR cs.min_length cs.max_length) .bytesN cs)
  | bytearrayM {cs : Constrs} :
      IRM env cache (.inner (.bytearrayIR cs.min_length cs.max_length) .bytearrayN cs)
  | datetimeM {cs : Constrs} : IRM env cache (.inner (.datetimeIR cs.tz) .datetimeN cs)
  | timeM {cs : Constrs} : IRM env cache (.inner (.timeIR cs.tz) .timeN cs)
  | dateM {cs : Constrs} : IRM env cache (.inner .dateIR .dateN cs)
  | uuidM {cs : Constrs} : IRM env cache (.inner .uuidIR .uuidN cs)
  | decimalM {cs : Constrs} : IRM env cache (.inner .decimalIR .decimalN cs)
  | rawM {cs : Constrs} : IRM env cache (.inner .rawIR .rawN cs)
  | extM {cs : Constrs} : IRM env cache (.inner .extIR .extN cs)
  | listM {cs : Constrs} {it : TypeIR} {arg : Option PyType} :
      IRM env cache (.oneOpt it arg) →
      IRM env cache (.inner (.listIR it cs.min_length cs.max_length) (.listN arg) cs)
  | setM {cs : Constrs} {it : TypeIR} {arg : Option PyType} :
      IRM env cache (.oneOpt it arg) →
      IRM env cache (.inner (.setIR it cs.min_length cs.max_length) (.setN arg) cs)
  | frozensetM {cs : Constrs} {it : TypeIR} {arg : Option PyType} :
      IRM env cache (.oneOpt it arg) →
      IRM env cache (.inner (.frozensetIR it cs.min_length cs.max_length) (.frozensetN arg) cs)
  | tupNoneM {cs : Constrs} {args0 : Option (List TupArg)} :
      tupleNorm args0 = none →
      IRM env cache (.inner (.vartupleIR .anyIR cs.min_length cs.max_length) (.tupleN args0) cs)
  | tupVarM {cs : Constrs} {args0 : Option (List TupArg)} {a : TupArg} {it : TypeIR} :
      tupleNorm args0 = some [a, .ellipsis] →
      IRM env cache (.oneTup it a) →
      IRM env cache (.inner (.vartupleIR it cs.min_length cs.max_length) (.tupleN args0) cs)
  | tupFixM {cs : Constrs} {args0 : Option (List TupArg)} {l : List TupArg} {its : List TypeIR} :
      tupleNorm args0 = some l →
      (∀ a : TupArg, l ≠ [a, .ellipsis]) →
      IRM env cache (.manyTup its l) →
      IRM env cache (.inner (.tupleIR its) (.tupleN args0) cs)
  | dictNoneM {cs : Constrs} :
      IRM env cache (.inner (.dictIR .anyIR .anyIR cs.min_length cs.max_length) (.dictN none) cs)
  | dictSomeM {cs : Constrs} {k v : PyType} {kt vt : TypeIR} :
      IRM env cache (.one kt k) →
      IRM env cache (.one vt v) →
      IRM env cache (.inner (.dictIR kt vt cs.min_length cs.max_length) (.dictN (some (k, v))) cs)
  | unionM {cs : Constrs} {args : List PyType} {ts : List TypeIR} :
      IRM env cache (.many ts args) →
      IRM env cache (.inner (.unionIR ts) (.unionN args) cs)
  | litIntM {cs : Constrs} {vals : List Int} :
      IRM env cache
        (.inner (.litIntIR (List.insertionSort (fun a b : Int => a ≤ b) vals)) (.litIntN vals) cs)
  | litStrM {cs : Constrs} {vals : List String} :
      IRM env cache
        (.inner (.litStrIR (List.insertionSort (fun a b : String => a ≤ b) vals)) (.litStrN vals) cs)
  | classEnumM {cs : Constrs} {c : Nat} :
      nlookup env c = some .enumDecl →
      IRM env cache (.inner (.enumIR c) (.classN c) cs)
  | classObjM {cs : Constrs} {c : Nat} {decl : ClassDecl} {data : ObjData}
      {skel : List FieldSkel} {i : Nat} :
      nlookup env c = some decl →
      declData decl = some (data, skel) →
      nlookup cache c = some i →
      IRM env cache (.inner (.ref i) (.classN c) cs)
  | classMissM {cs : Constrs} {c : Nat} :
      nlookup env c = none →
      IRM env cache (.inner (.customIR c) (.classN c) cs)
  | manyNilM : IRM env cache (.many [] [])
  | manyConsM {ir : TypeIR} {t : PyType} {irs : List TypeIR} {ts : List PyType} :
      IRM env cache (.one ir t) →
      IRM env cache (.many irs ts) →
      IRM env cache (.many (ir :: irs) (t :: ts))
  | optNoneM : IRM env cache (.oneOpt .anyIR none)
  | optSomeM {ir : TypeIR} {t : PyType} :
      IRM env cache (.one ir t) →
      IRM env cache (.oneOpt ir (some t))
  | tupTyM {ir : TypeIR} {t : PyType} :
      IRM env cache (.one ir t) →
      IRM env cache (.oneTup ir (.ty t))
  | tupEllM : IRM env cache (.oneTup (.customIR ellipsisClassId) .ellipsis)
  | tupUnitM : IRM env cache (.oneTup (.customIR emptyTupleClassId) .unit)
  | manyTupNilM : IRM env cache (.manyTup [] [])
  | manyTupConsM {ir : TypeIR} {a : TupArg} {irs : List TypeIR} {tas : List TupArg} :
      IRM env cache (.oneTup ir a) →
      IRM env cache (.manyTup irs tas) →
      IRM env cache (.manyTup (ir :: irs) (a :: tas))

/-- Cache extension: every cached class keeps its node. New entries may
be added (the source only ever inserts absent keys), existing entries
are never removed or rebound. -/
def CacheLe (a b : List (Nat × Nat)) : Prop :=
  ∀ c i, nlookup a c = some i → nlookup b c = some i

/-- Growth facts relating the state before and after one translator
call. -/
def Step (σ σ' : TState) : Prop :=
  CacheLe σ.cache σ'.cache ∧ σ.arena.length ≤ σ'.arena.length

/-- One produced `Field` agrees with its skeleton: all non-type data is
copied and the type is the translation of the declared type. -/
def FieldMatch (env : Env) (cache : List (Nat × Nat)) (fl : Field) (fs : FieldSkel) : Prop :=
  fl.name = fs.name ∧ fl.encode_name = fs.encode_name ∧ fl.required = fs.required ∧
  fl.default = fs.default ∧ fl.default_factory = fs.default_factory ∧
  IRM env cache (.one fl.type fs.type)

/-- A produced field list agrees pointwise with its skeleton. -/
def FieldsMatch (env : Env) (cache : List (Nat × Nat)) (flds : List Field)
    (skel : List FieldSkel) : Prop :=
  List.Forall₂ (FieldMatch env cache) flds skel

/-- A completed arena node for class `c` is exactly the node its
declaration prescribes. -/
def NodeOK (env : Env) (cache : List (Nat × Nat)) (c : Nat) (node : ObjNode) : Prop :=
  ∃ decl data skel, nlookup env c = some decl ∧ declData decl = some (data, skel) ∧
    node.cls = c ∧ node.data = data ∧ FieldsMatch env cache node.fields skel

/-- The translator-state invariant, relative to a set `P` of cache
entries whose nodes are still under construction (placeholders created
by enclosing frames).  Every cache entry points below the arena's
length; keys and slots are registered at most once; and every entry not
pending is a completed, declaration-correct node. -/
def PendOK (env : Env) (σ : TState) (P : List (Nat × Nat)) : Prop :=
  (σ.cache.map Prod.fst).Nodup ∧ (σ.cache.map Prod.snd).Nodup ∧
  ∀ e ∈ σ.cache, e.2 < σ.arena.length ∧
    (e ∈ P ∨ ∃ node, σ.arena[e.2]? = some node ∧ NodeOK env σ.cache e.1 node)

/-- The invariant of a state between top-level translations: no pending
placeholders. -/
def Invar (env : Env) (σ : TState) : Prop := PendOK env σ []

/-- The generic-arm hypothesis tying `translateObj`'s arguments to the
class declaration they came from. -/
def DeclSkel (env : Env) (c : Nat) (data : ObjData) (skel : List FieldSkel) : Prop :=
  ∃ decl, nlookup env c = some decl ∧ declData decl = some (data, skel)

theorem nlookup_mem {β : Type} {l : List (Nat × β)} {c : Nat} {v : β}
    (h : nlookup l c = some v) : (c, v) ∈ l := by
  induction l with
  | nil => simp [nlookup] at h
  | cons e rest ih =>
    obtain ⟨k, w⟩ := e
    by_cases hk : k = c
    · subst hk
      simp [nlookup] at h
      simp [h]
    · simp [nlookup, hk] at h
      exact List.mem_cons_of_mem _ (ih h)

theorem nlookup_none_not_key {β : Type} {l : List (Nat × β)} {c : Nat}
    (h : nlookup l c = none) : c ∉ l.map Prod.fst := by
  induction l with
  | nil => simp
  | cons e rest ih =>
    obtain ⟨k, w⟩ := e
    by_cases hk : k = c
    · subst hk; simp [nlookup] at h
    · simp [nlookup, hk] at h
      simpa [Ne.symm hk] using ih h

theorem CacheLe_rfl (a : List (Nat × Nat)) : CacheLe a a := fun _ _ h => h

theorem CacheLe_trans {a b c : List (Nat × Nat)} (h₁ : CacheLe a b) (h₂ : CacheLe b c) :
    CacheLe a c := fun k i h => h₂ k i (h₁ k i h)

theorem Step_rfl (σ : TState) : Step σ σ := ⟨CacheLe_rfl _, le_rfl⟩

theorem Step_trans {σ₁ σ₂ σ₃ : TState} (h₁ : Step σ₁ σ₂) (h₂ : Step σ₂ σ₃) :
    Step σ₁ σ₃ := ⟨CacheLe_trans h₁.1 h₂.1, le_trans h₁.2 h₂.2⟩

theorem CacheLe_cons_fresh {l : List (Nat × Nat)} {c i : Nat}
    (h : nlookup l c = none) : CacheLe l ((c, i) :: l) := by
  intro c' i' h'
  have hne : c ≠ c' := by
    intro he; subst he; rw [h'] at h; exact Option.noConfusion h
  simpa [nlookup, hne] using h'

theorem IRM_mono {env : Env} {cache cache' : List (Nat × Nat)}
    (hle : CacheLe cache cache') {ix : MatchIx} (h : IRM env cache ix) :
    IRM env cache' ix := by
  induction h with
  | bareM _ hee ih => exact .bareM ih hee
  | wrapM _ hee hne ih => exact .wrapM ih hee hne
  | anyM => exact .anyM
  | noneM => exact .noneM
  | boolM => exact .boolM
  | intM => exact .intM
  | floatM => exact .floatM
  | strM => exact .strM
  | bytesM => exact .bytesM
  | bytearrayM => exact .bytearrayM
  | datetimeM => exact .datetimeM
  | timeM => exact .timeM
  | dateM => exact .dateM
  | uuidM => exact .uuidM
  | decimalM => exact .decimalM
  | rawM => exact .rawM
  | extM => exact .extM
  | listM _ ih => exact .listM ih
  | setM _ ih => exact .setM ih
  | frozensetM _ ih => exact .frozensetM ih
  | tupNoneM he => exact .tupNoneM he
  | tupVarM he _ ih => exact .tupVarM he ih
  | tupFixM he hex _ ih => exact .tupFixM he hex ih
  | dictNoneM => exact .dictNoneM
  | dictSomeM _ _ ih₁ ih₂ => exact .dictSomeM ih₁ ih₂
  | unionM _ ih => exact .unionM ih
  | litIntM => exact .litIntM
  | litStrM => exact .litStrM
  | classEnumM he => exact .classEnumM he
  | classObjM he hd hc => exact .classObjM he hd (hle _ _ hc)
  | classMissM he => exact .classMissM he
  | manyNilM => exact .manyNilM
  | manyConsM _ _ ih₁ ih₂ => exact .manyConsM ih₁ ih₂
  | optNoneM => exact .optNoneM
  | optSomeM _ ih => exact .optSomeM ih
  | tupTyM _ ih => exact .tupTyM ih
  | tupEllM => exact .tupEllM
  | tupUnitM => exact .tupUnitM
  | manyTupNilM => exact .manyTupNilM
  | manyTupConsM _ _ ih₁ ih₂ => exact .manyTupConsM ih₁ ih₂

theorem FieldsMatch_mono {env : Env} {cache cache' : List (Nat × Nat)}
    (hle : CacheLe cache cache') {flds : List Field} {skel : List FieldSkel}
    (h : FieldsMatch env cache flds skel) : FieldsMatch env cache' flds skel :=
  h.imp (fun _ _ hm =>
    ⟨hm.1, hm.2.1, hm.2.2.1, hm.2.2.2.1, hm.2.2.2.2.1, IRM_mono hle hm.2.2.2.2.2⟩)

theorem NodeOK_mono {env : Env} {cache cache' : List (Nat × Nat)}
    (hle : CacheLe cache cache') {c : Nat} {node : ObjNode}
    (h : NodeOK env cache c node) : NodeOK env cache' c node := by
  obtain ⟨decl, data, skel, h₁, h₂, h₃, h₄, h₅⟩ := h
  exact ⟨decl, data, skel, h₁, h₂, h₃, h₄, FieldsMatch_mono hle h₅⟩

theorem PendOK_register {env : Env} {σ : TState} {P : List (Nat × Nat)} {c : Nat}
    (data : ObjData) (hP : PendOK env σ P) (hc : nlookup σ.cache c = none) :
    PendOK env ⟨(c, σ.arena.length) :: σ.cache, σ.arena ++ [⟨c, data, []⟩]⟩
      ((c, σ.arena.length) :: P) := by
  obtain ⟨hk, hs, hmem⟩ := hP
  refine ⟨?_, ?_, ?_⟩
  · simpa [hk] using nlookup_none_not_key hc
  · simp only [List.map_cons, List.nodup_cons]
    refine ⟨?_, hs⟩
    intro hmm
    simp only [List.mem_map] at hmm
    obtain ⟨e, he, he2⟩ := hmm
    exact absurd he2 (Nat.ne_of_lt (hmem e he).1)
  · intro e he
    simp only [List.mem_cons] at he
    rcases he with rfl | he
    · constructor
      · simp
      · exact Or.inl (by simp)
    · obtain ⟨hlt, hcl⟩ := hmem e he
      refine ⟨by simp; omega, ?_⟩
      rcases hcl with hpend | ⟨node, hget, hok⟩
      · exact Or.inl (by simp [hpend])
      · refine Or.inr ⟨node, ?_, NodeOK_mono (CacheLe_cons_fresh hc) hok⟩
        rw [List.getElem?_append]
        simp [hlt, hget]

theorem PendOK_complete {env : Env} {σ₂ : TState} {P : List (Nat × Nat)} {c i : Nat}
    {data : ObjData} {flds : List Field} {decl : ClassDecl} {skel : List FieldSkel}
    (hP2 : PendOK env σ₂ ((c, i) :: P))
    (hmem : nlookup σ₂.cache c = some i)
    (henv : nlookup env c = some decl)
    (hdd : declData decl = some (data, skel))
    (hFM : FieldsMatch env σ₂.cache flds skel) :
    PendOK env ⟨σ₂.cache, σ₂.arena.set i ⟨c, data, flds⟩⟩ P := by
  obtain ⟨hk, hs, hall⟩ := hP2
  have hci : (c, i) ∈ σ₂.cache := nlookup_mem hmem
  have hilen : i < σ₂.arena.length := (hall _ hci).1
  refine ⟨hk, hs, ?_⟩
  intro e he
  refine ⟨by simpa using (hall e he).1, ?_⟩
  by_cases hec : e = (c, i)
  · subst hec
    refine Or.inr ⟨⟨c, data, flds⟩, ?_, decl, data, skel, henv, hdd, rfl, rfl, hFM⟩
    simp [List.getElem?_set, hilen]
  · have hne : e.2 ≠ i := by
      intro h2
      exact hec (List.inj_on_of_nodup_map hs he hci h2)
    obtain ⟨hlt, hcl⟩ := hall e he
    rcases hcl with hpend | ⟨node, hget, hok⟩
    · rcases List.mem_cons.mp hpend with h | h
      · exact absurd h hec
      · exact Or.inl h
    · refine Or.inr ⟨node, ?_, hok⟩
      simp [List.getElem?_set, Ne.symm hne, hget]


theorem transOK (env : Env) : ∀ f : Nat,
    (∀ P σ t out σ', PendOK env σ P → translate env f σ t = some (out, σ') →
      Step σ σ' ∧ PendOK env σ' P ∧ IRM env σ'.cache (.one out t)) ∧
    (∀ P σ h cs out σ', PendOK env σ P → translateInner env f σ h cs = some (out, σ') →
      Step σ σ' ∧ PendOK env σ' P ∧ IRM env σ'.cache (.inner out h cs)) ∧
    (∀ P σ c data skel out σ', PendOK env σ P → DeclSkel env c data skel →
      translateObj env f σ c data skel = some (out, σ') →
      Step σ σ' ∧ PendOK env σ' P ∧ ∃ i, out = .ref i ∧ nlookup σ'.cache c = some i) ∧
    (∀ P σ skel flds σ', PendOK env σ P → translateFields env f σ skel = some (flds, σ') →
      Step σ σ' ∧ PendOK env σ' P ∧ FieldsMatch env σ'.cache flds skel) ∧
    (∀ P σ ts irs σ', PendOK env σ P → translateList env f σ ts = some (irs, σ') →
      Step σ σ' ∧ PendOK env σ' P ∧ IRM env σ'.cache (.many irs ts)) ∧
    (∀ P σ arg out σ', PendOK env σ P → translateOptArg env f σ arg = some (out, σ') →
      Step σ σ' ∧ PendOK env σ' P ∧ IRM env σ'.cache (.oneOpt out arg)) ∧
    (∀ P σ a out σ', PendOK env σ P → translateTupArg env f σ a = some (out, σ') →
      Step σ σ' ∧ PendOK env σ' P ∧ IRM env σ'.cache (.oneTup out a)) ∧
    (∀ P σ tas irs σ', PendOK env σ P → translateTupList env f σ tas = some (irs, σ') →
      Step σ σ' ∧ PendOK env σ' P ∧ IRM env σ'.cache (.manyTup irs tas)) := by
  intro f
  induction f with
  | zero =>
    refine ⟨?_, ?_, ?_, ?_, ?_, ?_, ?_, ?_⟩
    · intro P σ t out σ' _ htr; exact absurd htr (by simp [translate])
    · intro P σ h cs out σ' _ htr; exact absurd htr (by simp [translateInner])
    · intro P σ c data skel out σ' _ _ htr; exact absurd htr (by simp [translateObj])
    · intro P σ skel flds σ' _ htr; exact absurd htr (by simp [translateFields])
    · intro P σ ts irs σ' _ htr; exact absurd htr (by simp [translateList])
    · intro P σ arg out σ' _ htr; exact absurd htr (by simp [translateOptArg])
    · intro P σ a out σ' _ htr; exact absurd htr (by simp [translateTupArg])
    · intro P σ tas irs σ' _ htr; exact absurd htr (by simp [translateTupList])
  | succ f IH =>
    obtain ⟨IHtr, IHin, IHobj, IHflds, IHlist, IHopt, IHtup, IHtuplist⟩ := IH
    refine ⟨?_, ?_, ?_, ?_, ?_, ?_, ?_, ?_⟩
    -- translate
    · intro P σ t out σ' hP htr
      simp only [translate] at htr
      split at htr
      · exact absurd htr (by simp)
      · rename_i out0 σ₀ hti
        obtain ⟨hstep, hPO, hIRM⟩ := IHin P σ _ _ out0 σ₀ hP hti
        rcases hee : foldMetaExtras (originArgsMetadata t).2 with ⟨ejs, ex⟩
        rw [hee] at htr
        cases ejs with
        | nil =>
          cases ex with
          | nil =>
            simp only [Option.some.injEq, Prod.mk.injEq] at htr
            obtain ⟨rfl, rfl⟩ := htr
            exact ⟨hstep, hPO, .bareM hIRM hee⟩
          | cons x xs =>
            simp only [Option.some.injEq, Prod.mk.injEq] at htr
            obtain ⟨rfl, rfl⟩ := htr
            exact ⟨hstep, hPO, .wrapM hIRM hee (by simp)⟩
        | cons x xs =>
          cases ex with
          | nil =>
            simp only [Option.some.injEq, Prod.mk.injEq] at htr
            obtain ⟨rfl, rfl⟩ := htr
            exact ⟨hstep, hPO, .wrapM hIRM hee (by simp)⟩
          | cons y ys =>
            simp only [Option.some.injEq, Prod.mk.injEq] at htr
            obtain ⟨rfl, rfl⟩ := htr
            exact ⟨hstep, hPO, .wrapM hIRM hee (by simp)⟩
    -- translateInner
    · intro P σ h cs out σ' hP htr
      cases h with
      | anyN =>
        simp only [translateInner, Option.some.injEq, Prod.mk.injEq] at htr
        obtain ⟨rfl, rfl⟩ := htr
        exact ⟨Step_rfl σ, hP, .anyM⟩
      | noneN =>
        simp only [translateInner, Option.some.injEq, Prod.mk.injEq] at htr
        obtain ⟨rfl, rfl⟩ := htr
        exact ⟨Step_rfl σ, hP, .noneM⟩
      | boolN =>
        simp only [translateInner, Option.some.injEq, Prod.mk.injEq] at htr
        obtain ⟨rfl, rfl⟩ := htr
        exact ⟨Step_rfl σ, hP, .boolM⟩
      | intN =>
        simp only [translateInner, Option.some.injEq, Prod.mk.injEq] at htr
        obtain ⟨rfl, rfl⟩ := htr
        exact ⟨Step_rfl σ, hP, .intM⟩
      | floatN =>
        simp only [translateInner, Option.some.injEq, Prod.mk.injEq] at htr
        obtain ⟨rfl, rfl⟩ := htr
        exact ⟨Step_rfl σ, hP, .floatM⟩
      | strN =>
        simp only [translateInner, Option.some.injEq, Prod.mk.injEq] at htr
        obtain ⟨rfl, rfl⟩ := htr
        exact ⟨Step_rfl σ, hP, .strM⟩
      | bytesN =>
        simp only [translateInner, Option.some.injEq, Prod.mk.injEq] at htr
        obtain ⟨rfl, rfl⟩ := htr
        exact ⟨Step_rfl σ, hP, .bytesM⟩
      | bytearrayN =>
        simp only [translateInner, Option.some.injEq, Prod.mk.injEq] at htr
        obtain ⟨rfl, rfl⟩ := htr
        exact ⟨Step_rfl σ, hP, .bytearrayM⟩
      | datetimeN =>
        simp only [translateInner, Option.some.injEq, Prod.mk.injEq] at htr
        obtain ⟨rfl, rfl⟩ := htr
        exact ⟨Step_rfl σ, hP, .datetimeM⟩
      | timeN =>
        simp only [translateInner, Option.some.injEq, Prod.mk.injEq] at htr
        obtain ⟨rfl, rfl⟩ := htr
        exact ⟨Step_rfl σ, hP, .timeM⟩
      | dateN =>
        simp only [translateInner, Option.some.injEq, Prod.mk.injEq] at htr
        obtain ⟨rfl, rfl⟩ := htr
        exact ⟨Step_rfl σ, hP, .dateM⟩
      | uuidN =>
        simp only [translateInner, Option.some.injEq, Prod.mk.injEq] at htr
        obtain ⟨rfl, rfl⟩ := htr
        exact ⟨Step_rfl σ, hP, .uuidM⟩
      | decimalN =>
        simp only [translateInner, Option.some.injEq, Prod.mk.injEq] at htr
        obtain ⟨rfl, rfl⟩ := htr
        exact ⟨Step_rfl σ, hP, .decimalM⟩
      | rawN =>
        simp only [translateInner, Option.some.injEq, Prod.mk.injEq] at htr
        obtain ⟨rfl, rfl⟩ := htr
        exact ⟨Step_rfl σ, hP, .rawM⟩
      | extN =>
        simp only [translateInner, Option.some.injEq, Prod.mk.injEq] at htr
        obtain ⟨rfl, rfl⟩ := htr
        exact ⟨Step_rfl σ, hP, .extM⟩
      | litIntN vals =>
        simp only [translateInner, Option.some.injEq, Prod.mk.injEq] at htr
        obtain ⟨rfl, rfl⟩ := htr
        exact ⟨Step_rfl σ, hP, .litIntM⟩
      | litStrN vals =>
        simp only [translateInner, Option.some.injEq, Prod.mk.injEq] at htr
        obtain ⟨rfl, rfl⟩ := htr
        exact ⟨Step_rfl σ, hP, .litStrM⟩
      | listN arg =>
        simp only [translateInner] at htr
        split at htr
        · exact absurd htr (by simp)
        · rename_i it σ₁ hopt
          simp only [Option.some.injEq, Prod.mk.injEq] at htr
          obtain ⟨rfl, rfl⟩ := htr
          obtain ⟨hstep, hPO, hM⟩ := IHopt P σ arg it σ₁ hP hopt
          exact ⟨hstep, hPO, .listM hM⟩
      | setN arg =>
        simp only [translateInner] at htr
        split at htr
        · exact absurd htr (by simp)
        · rename_i it σ₁ hopt
          simp only [Option.some.injEq, Prod.mk.injEq] at htr
          obtain ⟨rfl, rfl⟩ := htr
          obtain ⟨hstep, hPO, hM⟩ := IHopt P σ arg it σ₁ hP hopt
          exact ⟨hstep, hPO, .setM hM⟩
      | frozensetN arg =>
        simp only [translateInner] at htr
        split at htr
        · exact absurd htr (by simp)
        · rename_i it σ₁ hopt
          simp only [Option.some.injEq, Prod.mk.injEq] at htr
          obtain ⟨rfl, rfl⟩ := htr
          obtain ⟨hstep, hPO, hM⟩ := IHopt P σ arg it σ₁ hP hopt
          exact ⟨hstep, hPO, .frozensetM hM⟩
      | tupleN args0 =>
        simp only [translateInner] at htr
        split at htr
        · rename_i htn
          simp only [Option.some.injEq, Prod.mk.injEq] at htr
          obtain ⟨rfl, rfl⟩ := htr
          exact ⟨Step_rfl σ, hP, .tupNoneM htn⟩
        · rename_i a htn
          split at htr
          · exact absurd htr (by simp)
          · rename_i it σ₁ hta
            simp only [Option.some.injEq, Prod.mk.injEq] at htr
            obtain ⟨rfl, rfl⟩ := htr
            obtain ⟨hstep, hPO, hM⟩ := IHtup P σ a it σ₁ hP hta
            exact ⟨hstep, hPO, .tupVarM htn hM⟩
        · rename_i l hne htn
          split at htr
          · exact absurd htr (by simp)
          · rename_i its σ₁ htl
            simp only [Option.some.injEq, Prod.mk.injEq] at htr
            obtain ⟨rfl, rfl⟩ := htr
            obtain ⟨hstep, hPO, hM⟩ := IHtuplist P σ l its σ₁ hP htl
            refine ⟨hstep, hPO, .tupFixM htn ?_ hM⟩
            intro a hla
            exact hne a hla
      | dictN args =>
        simp only [translateInner] at htr
        split at htr
        · simp only [Option.some.injEq, Prod.mk.injEq] at htr
          obtain ⟨rfl, rfl⟩ := htr
          exact ⟨Step_rfl σ, hP, .dictNoneM⟩
        · rename_i k v
          split at htr
          · exact absurd htr (by simp)
          · rename_i kt σ₁ hk
            split at htr
            · exact absurd htr (by simp)
            · rename_i vt σ₂ hv
              simp only [Option.some.injEq, Prod.mk.injEq] at htr
              obtain ⟨rfl, rfl⟩ := htr
              obtain ⟨hstep₁, hP₁, hkM⟩ := IHtr P σ k kt σ₁ hP hk
              obtain ⟨hstep₂, hP₂, hvM⟩ := IHtr P σ₁ v vt σ₂ hP₁ hv
              exact ⟨Step_trans hstep₁ hstep₂, hP₂,
                .dictSomeM (IRM_mono hstep₂.1 hkM) hvM⟩
      | unionN args =>
        simp only [translateInner] at htr
        split at htr
        · exact absurd htr (by simp)
        · rename_i ts σ₁ hl
          simp only [Option.some.injEq, Prod.mk.injEq] at htr
          obtain ⟨rfl, rfl⟩ := htr
          obtain ⟨hstep, hPO, hM⟩ := IHlist P σ args ts σ₁ hP hl
          exact ⟨hstep, hPO, .unionM hM⟩
      | classN c =>
        simp only [translateInner] at htr
        split at htr
        · rename_i henv
          simp only [Option.some.injEq, Prod.mk.injEq] at htr
          obtain ⟨rfl, rfl⟩ := htr
          exact ⟨Step_rfl σ, hP, .classEnumM henv⟩
        · rename_i d henv
          split at htr
          · exact absurd htr (by simp)
          · rename_i skel hsk
            have hdd : declData (ClassDecl.structDecl d) =
                some (.structD d.struct_tag_field d.struct_tag d.array_like
                  d.forbid_unknown_fields, skel) := by
              simp [declData, hsk]
            obtain ⟨hstep, hPO, i, rfl, hci⟩ :=
              IHobj P σ c _ skel out σ' hP ⟨.structDecl d, henv, hdd⟩ htr
            exact ⟨hstep, hPO, .classObjM henv hdd hci⟩
        · rename_i d henv
          have hdd : declData (ClassDecl.typeddictDecl d) =
              some (.typeddictD, typeddictFieldSkel d) := by simp [declData]
          obtain ⟨hstep, hPO, i, rfl, hci⟩ :=
            IHobj P σ c _ _ out σ' hP ⟨.typeddictDecl d, henv, hdd⟩ htr
          exact ⟨hstep, hPO, .classObjM henv hdd hci⟩
        · rename_i d henv
          split at htr
          · exact absurd htr (by simp)
          · rename_i skel hsk
            have hdd : declData (ClassDecl.dataclassDecl d) = some (.dataclassD, skel) := by
              simp [declData, hsk]
            obtain ⟨hstep, hPO, i, rfl, hci⟩ :=
              IHobj P σ c _ skel out σ' hP ⟨.dataclassDecl d, henv, hdd⟩ htr
            exact ⟨hstep, hPO, .classObjM henv hdd hci⟩
        · rename_i d henv
          have hdd : declData (ClassDecl.namedtupleDecl d) =
              some (.namedtupleD, namedtupleFieldSkel d) := by simp [declData]
          obtain ⟨hstep, hPO, i, rfl, hci⟩ :=
            IHobj P σ c _ _ out σ' hP ⟨.namedtupleDecl d, henv, hdd⟩ htr
          exact ⟨hstep, hPO, .classObjM henv hdd hci⟩
        · rename_i henv
          simp only [Option.some.injEq, Prod.mk.injEq] at htr
          obtain ⟨rfl, rfl⟩ := htr
          exact ⟨Step_rfl σ, hP, .classMissM henv⟩
    -- translateObj
    · intro P σ c data skel out σ' hP hDS htr
      simp only [translateObj] at htr
      split at htr
      · rename_i i hc
        simp only [Option.some.injEq, Prod.mk.injEq] at htr
        obtain ⟨rfl, rfl⟩ := htr
        exact ⟨Step_rfl σ, hP, i, rfl, hc⟩
      · rename_i hc
        split at htr
        · exact absurd htr (by simp)
        · rename_i flds σ₂ htf
          simp only [Option.some.injEq, Prod.mk.injEq] at htr
          obtain ⟨rfl, rfl⟩ := htr
          have hreg := PendOK_register data hP hc
          obtain ⟨hstep, hPO, hFM⟩ :=
            IHflds ((c, σ.arena.length) :: P) _ skel flds σ₂ hreg htf
          have hci : nlookup σ₂.cache c = some σ.arena.length :=
            hstep.1 c _ (by simp [nlookup])
          obtain ⟨decl, henv, hdd⟩ := hDS
          have hcomp := PendOK_complete hPO hci henv hdd hFM
          refine ⟨⟨CacheLe_trans (CacheLe_cons_fresh hc) hstep.1, ?_⟩, hcomp,
            σ.arena.length, rfl, hci⟩
          have := hstep.2
          simp only [List.length_append, List.length_set] at this ⊢
          simp [List.length_set]
          omega
    -- translateFields
    · intro P σ skel flds σ' hP htf
      cases skel with
      | nil =>
        simp only [translateFields, Option.some.injEq, Prod.mk.injEq] at htf
        obtain ⟨rfl, rfl⟩ := htf
        exact ⟨Step_rfl σ, hP, List.Forall₂.nil⟩
      | cons fs rest =>
        simp only [translateFields] at htf
        split at htf
        · exact absurd htf (by simp)
        · rename_i ir σ₁ htr1
          split at htf
          · exact absurd htf (by simp)
          · rename_i flds2 σ₂ htf2
            simp only [Option.some.injEq, Prod.mk.injEq] at htf
            obtain ⟨rfl, rfl⟩ := htf
            obtain ⟨hstep₁, hP₁, hM₁⟩ := IHtr P σ fs.type ir σ₁ hP htr1
            obtain ⟨hstep₂, hP₂, hM₂⟩ := IHflds P σ₁ rest flds2 σ₂ hP₁ htf2
            refine ⟨Step_trans hstep₁ hstep₂, hP₂, List.Forall₂.cons ?_ hM₂⟩
            exact ⟨rfl, rfl, rfl, rfl, rfl, IRM_mono hstep₂.1 hM₁⟩
    -- translateList
    · intro P σ ts irs σ' hP htl
      cases ts with
      | nil =>
        simp only [translateList, Option.some.injEq, Prod.mk.injEq] at htl
        obtain ⟨rfl, rfl⟩ := htl
        exact ⟨Step_rfl σ, hP, .manyNilM⟩
      | cons t rest =>
        simp only [translateList] at htl
        split at htl
        · exact absurd htl (by simp)
        · rename_i ir σ₁ htr1
          split at htl
          · exact absurd htl (by simp)
          · rename_i irs2 σ₂ htl2
            simp only [Option.some.injEq, Prod.mk.injEq] at htl
            obtain ⟨rfl, rfl⟩ := htl
            obtain ⟨hstep₁, hP₁, hM₁⟩ := IHtr P σ t ir σ₁ hP htr1
            obtain ⟨hstep₂, hP₂, hM₂⟩ := IHlist P σ₁ rest irs2 σ₂ hP₁ htl2
            exact ⟨Step_trans hstep₁ hstep₂, hP₂,
              .manyConsM (IRM_mono hstep₂.1 hM₁) hM₂⟩
    -- translateOptArg
    · intro P σ arg out σ' hP hoa
      cases arg with
      | none =>
        simp only [translateOptArg, Option.some.injEq, Prod.mk.injEq] at hoa
        obtain ⟨rfl, rfl⟩ := hoa
        exact ⟨Step_rfl σ, hP, .optNoneM⟩
      | some a =>
        simp only [translateOptArg] at hoa
        obtain ⟨hstep, hPO, hM⟩ := IHtr P σ a out σ' hP hoa
        exact ⟨hstep, hPO, .optSomeM hM⟩
    -- translateTupArg
    · intro P σ a out σ' hP hta
      cases a with
      | ty t =>
        simp only [translateTupArg] at hta
        obtain ⟨hstep, hPO, hM⟩ := IHtr P σ t out σ' hP hta
        exact ⟨hstep, hPO, .tupTyM hM⟩
      | ellipsis =>
        simp only [translateTupArg, Option.some.injEq, Prod.mk.injEq] at hta
        obtain ⟨rfl, rfl⟩ := hta
        exact ⟨Step_rfl σ, hP, .tupEllM⟩
      | unit =>
        simp only [translateTupArg, Option.some.injEq, Prod.mk.injEq] at hta
        obtain ⟨rfl, rfl⟩ := hta
        exact ⟨Step_rfl σ, hP, .tupUnitM⟩
    -- translateTupList
    · intro P σ tas irs σ' hP htl
      cases tas with
      | nil =>
        simp only [translateTupList, Option.some.injEq, Prod.mk.injEq] at htl
        obtain ⟨rfl, rfl⟩ := htl
        exact ⟨Step_rfl σ, hP, .manyTupNilM⟩
      | cons a rest =>
        simp only [translateTupList] at htl
        split at htl
        · exact absurd htl (by simp)
        · rename_i ir σ₁ hta1
          split at htl
          · exact absurd htl (by simp)
          · rename_i irs2 σ₂ htl2
            simp only [Option.some.injEq, Prod.mk.injEq] at htl
            obtain ⟨rfl, rfl⟩ := htl
            obtain ⟨hstep₁, hP₁, hM₁⟩ := IHtup P σ a ir σ₁ hP hta1
            obtain ⟨hstep₂, hP₂, hM₂⟩ := IHtuplist P σ₁ rest irs2 σ₂ hP₁ htl2
            exact ⟨Step_trans hstep₁ hstep₂, hP₂,
              .manyTupConsM (IRM_mono hstep₂.1 hM₁) hM₂⟩



/-- The congruence goal, by match-index shape: outputs matched against
the same source under two caches unfold identically at depth `n`. -/
def CongrGoal (env : Env) (n : Nat) (σ₁ σ₂ : TState) : MatchIx → Prop
  | .one ir₁ t => ∀ ir₂, IRM env σ₂.cache (.one ir₂ t) →
      unfoldIR σ₁.arena n ir₁ = unfoldIR σ₂.arena n ir₂
  | .inner ir₁ h cs => ∀ ir₂, IRM env σ₂.cache (.inner ir₂ h cs) →
      unfoldIR σ₁.arena n ir₁ = unfoldIR σ₂.arena n ir₂
  | .many irs₁ ts => ∀ irs₂, IRM env σ₂.cache (.many irs₂ ts) →
      unfoldIRList σ₁.arena n irs₁ = unfoldIRList σ₂.arena n irs₂
  | .oneOpt ir₁ arg => ∀ ir₂, IRM env σ₂.cache (.oneOpt ir₂ arg) →
      unfoldIR σ₁.arena n ir₁ = unfoldIR σ₂.arena n ir₂
  | .oneTup ir₁ a => ∀ ir₂, IRM env σ₂.cache (.oneTup ir₂ a) →
      unfoldIR σ₁.arena n ir₁ = unfoldIR σ₂.arena n ir₂
  | .manyTup irs₁ tas => ∀ irs₂, IRM env σ₂.cache (.manyTup irs₂ tas) →
      unfoldIRList σ₁.arena n irs₁ = unfoldIRList σ₂.arena n irs₂

theorem congr_fields {env : Env} {σ₁ σ₂ : TState} {m : Nat}
    (hcg : ∀ t ir₁ ir₂, IRM env σ₁.cache (.one ir₁ t) → IRM env σ₂.cache (.one ir₂ t) →
      unfoldIR σ₁.arena m ir₁ = unfoldIR σ₂.arena m ir₂) :
    ∀ {skel : List FieldSkel} {flds₁ flds₂ : List Field},
      FieldsMatch env σ₁.cache flds₁ skel → FieldsMatch env σ₂.cache flds₂ skel →
      unfoldFieldList σ₁.arena m flds₁ = unfoldFieldList σ₂.arena m flds₂ := by
  intro skel flds₁ flds₂ h₁ h₂
  induction h₁ generalizing flds₂ with
  | nil =>
    cases h₂
    simp [unfoldFieldList]
  | cons hfm₁ htail₁ ih =>
    rename_i fl₁ fs rest₁ skelrest
    cases h₂ with
    | cons hfm₂ htail₂ =>
      rename_i fl₂ rest₂
      obtain ⟨n₁, e₁, ty₁, r₁, d₁, df₁⟩ := fl₁
      obtain ⟨n₂, e₂, ty₂, r₂, d₂, df₂⟩ := fl₂
      obtain ⟨hn₁, he₁, hr₁, hd₁, hdf₁, hM₁⟩ := hfm₁
      obtain ⟨hn₂, he₂, hr₂, hd₂, hdf₂, hM₂⟩ := hfm₂
      simp only at hn₁ he₁ hr₁ hd₁ hdf₁ hn₂ he₂ hr₂ hd₂ hdf₂
      subst hn₁ he₁ hr₁ hd₁ hdf₁
      subst hn₂ he₂ hr₂ hd₂ hdf₂
      simp only [unfoldFieldList]
      rw [hcg _ _ _ hM₁ hM₂, ih htail₂]

theorem IRM_congr (env : Env) : ∀ n : Nat, ∀ σ₁ σ₂ : TState,
    Invar env σ₁ → Invar env σ₂ →
    ∀ ix, IRM env σ₁.cache ix → CongrGoal env n σ₁ σ₂ ix := by
  intro n
  induction n using Nat.strong_induction_on with
  | _ n IHn =>
    intro σ₁ σ₂ hI₁ hI₂ ix hx
    induction hx with
    | bareM hin hee ih =>
      intro ir₂ h₂
      cases h₂ with
      | bareM hin₂ hee₂ => exact ih _ hin₂
      | wrapM hin₂ hee₂ hne₂ =>
        rw [hee] at hee₂
        exact absurd hee₂.symm hne₂
    | wrapM hin hee hne ih =>
      intro ir₂ h₂
      cases h₂ with
      | bareM hin₂ hee₂ =>
        rw [hee₂] at hee
        exact absurd hee.symm hne
      | wrapM hin₂ hee₂ hne₂ =>
        rw [hee] at hee₂
        injection hee₂ with hj₁ hj₂
        subst hj₁
        subst hj₂
        simp only [unfoldIR]
        rw [ih _ hin₂]
    | anyM => intro ir₂ h₂; cases h₂; simp [unfoldIR]
    | noneM => intro ir₂ h₂; cases h₂; simp [unfoldIR]
    | boolM => intro ir₂ h₂; cases h₂; simp [unfoldIR]
    | intM => intro ir₂ h₂; cases h₂; simp [unfoldIR]
    | floatM => intro ir₂ h₂; cases h₂; simp [unfoldIR]
    | strM => intro ir₂ h₂; cases h₂; simp [unfoldIR]
    | bytesM => intro ir₂ h₂; cases h₂; simp [unfoldIR]
    | bytearrayM => intro ir₂ h₂; cases h₂; simp [unfoldIR]
    | datetimeM => intro ir₂ h₂; cases h₂; simp [unfoldIR]
    | timeM => intro ir₂ h₂; cases h₂; simp [unfoldIR]
    | dateM => intro ir₂ h₂; cases h₂; simp [unfoldIR]
    | uuidM => intro ir₂ h₂; cases h₂; simp [unfoldIR]
    | decimalM => intro ir₂ h₂; cases h₂; simp [unfoldIR]
    | rawM => intro ir₂ h₂; cases h₂; simp [unfoldIR]
    | extM => intro ir₂ h₂; cases h₂; simp [unfoldIR]
    | litIntM => intro ir₂ h₂; cases h₂; simp [unfoldIR]
    | litStrM => intro ir₂ h₂; cases h₂; simp [unfoldIR]
    | listM hsub ih =>
      intro ir₂ h₂
      cases h₂ with
      | listM hsub₂ =>
        simp only [unfoldIR]
        rw [ih _ hsub₂]
    | setM hsub ih =>
      intro ir₂ h₂
      cases h₂ with
      | setM hsub₂ =>
        simp only [unfoldIR]
        rw [ih _ hsub₂]
    | frozensetM hsub ih =>
      intro ir₂ h₂
      cases h₂ with
      | frozensetM hsub₂ =>
        simp only [unfoldIR]
        rw [ih _ hsub₂]
    | tupNoneM htn =>
      intro ir₂ h₂
      cases h₂ with
      | tupNoneM htn₂ => simp [unfoldIR]
      | tupVarM htn₂ hsub₂ => rw [htn] at htn₂; exact absurd htn₂ (by simp)
      | tupFixM htn₂ hne₂ hsub₂ => rw [htn] at htn₂; exact absurd htn₂ (by simp)
    | tupVarM htn hsub ih =>
      intro ir₂ h₂
      cases h₂ with
      | tupNoneM htn₂ => rw [htn] at htn₂; exact absurd htn₂ (by simp)
      | tupVarM htn₂ hsub₂ =>
        rw [htn] at htn₂
        simp only [Option.some.injEq, List.cons.injEq] at htn₂
        obtain ⟨ha, -⟩ := htn₂
        subst ha
        simp only [unfoldIR]
        rw [ih _ hsub₂]
      | tupFixM htn₂ hne₂ hsub₂ =>
        rw [htn] at htn₂
        simp only [Option.some.injEq] at htn₂
        exact absurd htn₂.symm (hne₂ _)
    | tupFixM htn hne hsub ih =>
      intro ir₂ h₂
      cases h₂ with
      | tupNoneM htn₂ => rw [htn] at htn₂; exact absurd htn₂ (by simp)
      | tupVarM htn₂ hsub₂ =>
        rw [htn] at htn₂
        simp only [Option.some.injEq] at htn₂
        exact absurd htn₂ (hne _)
      | tupFixM htn₂ hne₂ hsub₂ =>
        rw [htn] at htn₂
        simp only [Option.some.injEq] at htn₂
        subst htn₂
        simp only [unfoldIR]
        rw [ih _ hsub₂]
    | dictNoneM => intro ir₂ h₂; cases h₂; simp [unfoldIR]
    | dictSomeM hk hv ihk ihv =>
      intro ir₂ h₂
      cases h₂ with
      | dictSomeM hk₂ hv₂ =>
        simp only [unfoldIR]
        rw [ihk _ hk₂, ihv _ hv₂]
    | unionM hsub ih =>
      intro ir₂ h₂
      cases h₂ with
      | unionM hsub₂ =>
        simp only [unfoldIR]
        rw [ih _ hsub₂]
    | classEnumM henv =>
      intro ir₂ h₂
      cases h₂ with
      | classEnumM henv₂ => simp [unfoldIR]
      | classObjM henv₂ hdd₂ hc₂ =>
        rw [henv] at henv₂
        injection henv₂ with hdecl
        subst hdecl
        simp [declData] at hdd₂
      | classMissM henv₂ => rw [henv] at henv₂; exact absurd henv₂ (by simp)
    | classObjM henv hdd hc₁ =>
      rename_i cs c decl data skel i₁
      intro ir₂ h₂
      cases h₂ with
      | classEnumM henv₂ =>
        rw [henv] at henv₂
        injection henv₂ with hdecl
        subst hdecl
        simp [declData] at hdd
      | classMissM henv₂ => rw [henv] at henv₂; exact absurd henv₂ (by simp)
      | classObjM henv₂ hdd₂ hc₂ =>
        rename_i decl₂ data₂ skel₂ i₂
        rw [henv] at henv₂
        injection henv₂ with hdecl
        subst hdecl
        rw [hdd] at hdd₂
        injection hdd₂ with hds
        injection hds with hdata hskel
        subst hdata
        subst hskel
        cases n with
        | zero => simp [unfoldIR]
        | succ m =>
          obtain ⟨hlt₁, hcl₁⟩ := hI₁.2.2 _ (nlookup_mem hc₁)
          obtain ⟨hlt₂, hcl₂⟩ := hI₂.2.2 _ (nlookup_mem hc₂)
          rcases hcl₁ with hpend | ⟨node₁, hget₁, hok₁⟩
          · simp at hpend
          rcases hcl₂ with hpend | ⟨node₂, hget₂, hok₂⟩
          · simp at hpend
          obtain ⟨decl₁', data₁', skel₁', henv₁', hdd₁', hcls₁, hdata₁, hFM₁⟩ := hok₁
          obtain ⟨decl₂', data₂', skel₂', henv₂', hdd₂', hcls₂, hdata₂, hFM₂⟩ := hok₂
          rw [henv] at henv₁' henv₂'
          injection henv₁' with he₁
          injection henv₂' with he₂
          subst he₁
          subst he₂
          rw [hdd] at hdd₁' hdd₂'
          injection hdd₁' with hp₁
          injection hdd₂' with hp₂
          injection hp₁ with hpa₁ hpb₁
          injection hp₂ with hpa₂ hpb₂
          subst hpa₁
          subst hpb₁
          subst hpa₂
          subst hpb₂
          simp only [unfoldIR, hget₁, hget₂]
          rw [hcls₁, hcls₂, hdata₁, hdata₂]
          have hcg : ∀ t ir₁ ir₂, IRM env σ₁.cache (.one ir₁ t) →
              IRM env σ₂.cache (.one ir₂ t) →
              unfoldIR σ₁.arena m ir₁ = unfoldIR σ₂.arena m ir₂ := by
            intro t ir₁' ir₂' hm₁ hm₂
            exact IHn m (Nat.lt_succ_self m) σ₁ σ₂ hI₁ hI₂ _ hm₁ _ hm₂
          rw [congr_fields hcg hFM₁ hFM₂]
    | classMissM henv =>
      intro ir₂ h₂
      cases h₂ with
      | classEnumM henv₂ => rw [henv] at henv₂; exact absurd henv₂ (by simp)
      | classObjM henv₂ hdd₂ hc₂ => rw [henv] at henv₂; exact absurd henv₂ (by simp)
      | classMissM henv₂ => simp [unfoldIR]
    | manyNilM =>
      intro irs₂ h₂
      cases h₂
      simp [unfoldIRList]
    | manyConsM hhd htl ihhd ihtl =>
      intro irs₂ h₂
      cases h₂ with
      | manyConsM hhd₂ htl₂ =>
        simp only [unfoldIRList, List.cons.injEq]
        exact ⟨ihhd _ hhd₂, ihtl _ htl₂⟩
    | optNoneM =>
      intro ir₂ h₂
      cases h₂
      simp [unfoldIR]
    | optSomeM hsub ih =>
      intro ir₂ h₂
      cases h₂ with
      | optSomeM hsub₂ => exact ih _ hsub₂
    | tupTyM hsub ih =>
      intro ir₂ h₂
      cases h₂ with
      | tupTyM hsub₂ => exact ih _ hsub₂
    | tupEllM =>
      intro ir₂ h₂
      cases h₂
      simp [unfoldIR]
    | tupUnitM =>
      intro ir₂ h₂
      cases h₂
      simp [unfoldIR]
    | manyTupNilM =>
      intro irs₂ h₂
      cases h₂
      simp [unfoldIRList]
    | manyTupConsM hhd htl ihhd ihtl =>
      intro irs₂ h₂
      cases h₂ with
      | manyTupConsM hhd₂ htl₂ =>
        simp only [unfoldIRList, List.cons.injEq]
        exact ⟨ihhd _ hhd₂, ihtl _ htl₂⟩


theorem Invar_empty (env : Env) : Invar env ⟨[], []⟩ := by
  refine ⟨by simp, by simp, ?_⟩
  intro e he
  simp at he

theorem slookup_sset_self {β : Type} (a : List (String × β)) (k : String) (v : β) :
    slookup (sset a k v) k = some v := by
  induction a with
  | nil => simp [sset, slookup]
  | cons e rest ih =>
    obtain ⟨k', v'⟩ := e
    by_cases hk : k' = k
    · subst hk; simp [sset, slookup]
    · simp [sset, slookup, hk, ih]

theorem slookup_sset_other {β : Type} (a : List (String × β)) {k k' : String} (v : β)
    (hne : k' ≠ k) : slookup (sset a k' v) k = slookup a k := by
  induction a with
  | nil => simp [sset, slookup, hne]
  | cons e rest ih =>
    obtain ⟨k₀, v₀⟩ := e
    by_cases hk : k₀ = k'
    · subst hk; simp [sset, slookup, hne]
    · simp [sset, slookup, hk, ih]

theorem slookup_append {β : Type} (a b : List (String × β)) (k : String) :
    slookup (a ++ b) k =
      match slookup a k with
      | some v => some v
      | none => slookup b k := by
  induction a with
  | nil => simp [slookup]
  | cons e rest ih =>
    obtain ⟨k₀, v₀⟩ := e
    by_cases hk : k₀ = k
    · subst hk; simp [slookup]
    · simp [slookup, hk, ih]

theorem mergeJsonKey_other {a : List (String × JVal)} {k k' : String} {bv : JVal}
    (hne : k' ≠ k) : slookup (mergeJsonKey a k' bv) k = slookup a k := by
  simp only [mergeJsonKey]
  cases h : slookup a k' with
  | some av => exact slookup_sset_other a _ hne
  | none =>
    rw [slookup_append]
    cases h2 : slookup a k with
    | some v => rfl
    | none => simp [slookup, hne]

theorem mergeJsonKey_self {a : List (String × JVal)} {k : String} {bv : JVal} :
    slookup (mergeJsonKey a k bv) k =
      some (match slookup a k with
            | some av => mergeJsonVal av bv
            | none => bv) := by
  simp only [mergeJsonKey]
  cases h : slookup a k with
  | some av => exact slookup_sset_self a k _
  | none =>
    rw [slookup_append, h]
    simp [slookup]

theorem mergeJsonObj_not_key {b : List (String × JVal)} {k : String} :
    ∀ {a : List (String × JVal)}, slookup b k = none →
      slookup (mergeJsonObj a b) k = slookup a k := by
  induction b with
  | nil =>
    intro a _
    simp [mergeJsonObj]
  | cons e rest ih =>
    intro a hb
    obtain ⟨k₀, bv₀⟩ := e
    by_cases hk : k₀ = k
    · subst hk; simp [slookup] at hb
    · simp only [slookup, hk, if_false] at hb
      simp only [mergeJsonObj]
      rw [ih hb, mergeJsonKey_other hk]

theorem slookup_eq_none {β : Type} {l : List (String × β)} {k : String}
    (h : k ∉ l.map Prod.fst) : slookup l k = none := by
  induction l with
  | nil => simp [slookup]
  | cons e rest ih =>
    obtain ⟨k₀, v₀⟩ := e
    simp only [List.map_cons, List.mem_cons] at h
    push_neg at h
    simp [slookup, Ne.symm h.1, ih h.2]

theorem mergeJsonObj_both {b : List (String × JVal)} :
    ∀ {a : List (String × JVal)} {k : String} {av bv : JVal},
      (b.map Prod.fst).Nodup →
      slookup a k = some av → slookup b k = some bv →
      slookup (mergeJsonObj a b) k = some (mergeJsonVal av bv) := by
  induction b with
  | nil => intro a k av bv _ _ hb; simp [slookup] at hb
  | cons e rest ih =>
    intro a k av bv hnd ha hb
    obtain ⟨k₀, bv₀⟩ := e
    simp only [List.map_cons, List.nodup_cons] at hnd
    by_cases hk : k₀ = k
    · subst hk
      simp only [slookup, if_true, eq_self_iff_true, Option.some.injEq] at hb
      subst hb
      have hrest := slookup_eq_none (β := JVal) hnd.1
      simp only [mergeJsonObj]
      rw [mergeJsonObj_not_key hrest, mergeJsonKey_self, ha]
    · simp only [slookup, hk, if_false] at hb
      simp only [mergeJsonObj]
      exact ih hnd.2 (by rw [mergeJsonKey_other hk]; exact ha) hb

theorem mergeJsonObj_new {b : List (String × JVal)} :
    ∀ {a : List (String × JVal)} {k : String} {bv : JVal},
      (b.map Prod.fst).Nodup →
      slookup a k = none → slookup b k = some bv →
      slookup (mergeJsonObj a b) k = some bv := by
  induction b with
  | nil => intro a k bv _ _ hb; simp [slookup] at hb
  | cons e rest ih =>
    intro a k bv hnd ha hb
    obtain ⟨k₀, bv₀⟩ := e
    simp only [List.map_cons, List.nodup_cons] at hnd
    by_cases hk : k₀ = k
    · subst hk
      simp only [slookup, if_true, eq_self_iff_true, Option.some.injEq] at hb
      subst hb
      have hrest := slookup_eq_none (β := JVal) hnd.1
      simp only [mergeJsonObj]
      rw [mergeJsonObj_not_key hrest, mergeJsonKey_self, ha]
    · simp only [slookup, hk, if_false] at hb
      simp only [mergeJsonObj]
      exact ih hnd.2 (by rw [mergeJsonKey_other hk]; exact ha) hb

theorem supdate_cons {β : Type} (a : List (String × β)) (k₀ : String) (bv₀ : β)
    (rest : List (String × β)) :
    supdate a ((k₀, bv₀) :: rest) = supdate (sset a k₀ bv₀) rest := by
  simp [supdate]

theorem supdate_miss {β : Type} {b : List (String × β)} :
    ∀ {a : List (String × β)} {k : String},
      slookup b k = none → slookup (supdate a b) k = slookup a k := by
  induction b with
  | nil => intro a k _; simp [supdate]
  | cons e rest ih =>
    intro a k hb
    obtain ⟨k₀, bv₀⟩ := e
    by_cases hk : k₀ = k
    · subst hk; simp [slookup] at hb
    · simp only [slookup, hk, if_false] at hb
      rw [supdate_cons, ih hb, slookup_sset_other _ _ hk]

theorem supdate_hit {β : Type} {b : List (String × β)} :
    ∀ {a : List (String × β)} {k : String} {bv : β},
      (b.map Prod.fst).Nodup → slookup b k = some bv →
      slookup (supdate a b) k = some bv := by
  induction b with
  | nil => intro a k bv _ hb; simp [slookup] at hb
  | cons e rest ih =>
    intro a k bv hnd hb
    obtain ⟨k₀, bv₀⟩ := e
    simp only [List.map_cons, List.nodup_cons] at hnd
    by_cases hk : k₀ = k
    · subst hk
      simp only [slookup, if_true, eq_self_iff_true, Option.some.injEq] at hb
      subst hb
      rw [supdate_cons, supdate_miss (slookup_eq_none hnd.1), slookup_sset_self]
    · simp only [slookup, hk, if_false] at hb
      rw [supdate_cons]
      exact ih hnd.2 hb

theorem translateList_elem {env : Env} :
    ∀ {f : Nat} {σ : TState} {ts : List PyType} {irs : List TypeIR} {σ' : TState},
      translateList env f σ ts = some (irs, σ') →
      irs.length = ts.length ∧
        ∀ k (h1 : k < ts.length) (h2 : k < irs.length),
          ∃ g σa σb, translate env g σa ts[k] = some (irs[k], σb) := by
  intro f σ ts irs σ' h
  induction ts generalizing f σ irs σ' with
  | nil =>
    cases f with
    | zero => simp [translateList] at h
    | succ g =>
      simp only [translateList, Option.some.injEq, Prod.mk.injEq] at h
      obtain ⟨rfl, rfl⟩ := h
      exact ⟨rfl, fun k h1 h2 => absurd h1 (by simp)⟩
  | cons t rest ih =>
    cases f with
    | zero => simp [translateList] at h
    | succ g =>
      simp only [translateList] at h
      split at h
      · exact absurd h (by simp)
      · rename_i ir σ₁ htr
        split at h
        · exact absurd h (by simp)
        · rename_i irs2 σ₂ htl
          simp only [Option.some.injEq, Prod.mk.injEq] at h
          obtain ⟨rfl, rfl⟩ := h
          obtain ⟨hlen, helem⟩ := ih htl
          refine ⟨by simp [hlen], ?_⟩
          intro k h1 h2
          cases k with
          | zero => exact ⟨g, σ, σ₁, htr⟩
          | succ k =>
            simp only [List.getElem_cons_succ]
            exact helem k (by simpa using h1) (by simpa using h2)

theorem translateFields_info {env : Env} :
    ∀ {f : Nat} {σ : TState} {skel : List FieldSkel} {flds : List Field} {σ' : TState},
      translateFields env f σ skel = some (flds, σ') →
      flds.length = skel.length ∧
        ∀ k (h1 : k < flds.length) (h2 : k < skel.length),
          flds[k].name = skel[k].name ∧ flds[k].encode_name = skel[k].encode_name ∧
          flds[k].required = skel[k].required ∧ flds[k].default = skel[k].default ∧
          flds[k].default_factory = skel[k].default_factory := by
  intro f σ skel flds σ' h
  induction skel generalizing f σ flds σ' with
  | nil =>
    cases f with
    | zero => simp [translateFields] at h
    | succ g =>
      simp only [translateFields, Option.some.injEq, Prod.mk.injEq] at h
      obtain ⟨rfl, rfl⟩ := h
      exact ⟨rfl, fun k h1 h2 => absurd h1 (by simp)⟩
  | cons fs rest ih =>
    cases f with
    | zero => simp [translateFields] at h
    | succ g =>
      simp only [translateFields] at h
      split at h
      · exact absurd h (by simp)
      · rename_i ir σ₁ htr
        split at h
        · exact absurd h (by simp)
        · rename_i flds2 σ₂ htl
          simp only [Option.some.injEq, Prod.mk.injEq] at h
          obtain ⟨rfl, rfl⟩ := h
          obtain ⟨hlen, helem⟩ := ih htl
          refine ⟨by simp [hlen], ?_⟩
          intro k h1 h2
          cases k with
          | zero => exact ⟨rfl, rfl, rfl, rfl, rfl⟩
          | succ k =>
            simp only [List.getElem_cons_succ]
            exact helem k (by simpa using h1) (by simpa using h2)

theorem multi_type_info_ok {env : Env} {fuel : Nat} {types : List PyType}
    {protocol : ProtoSel} {irs : List TypeIR} {σf : TState}
    (h : multi_type_info env fuel types protocol = some (.ok irs σf)) :
    ∃ dec, protocolDecoder protocol = some dec ∧ decoderOK dec types = true ∧
      translateList env fuel ⟨[], []⟩ types = some (irs, σf) := by
  simp only [multi_type_info] at h
  split at h
  · exact absurd h (by simp)
  · rename_i dec hdec
    split at h
    · rename_i hok
      split at h
      · exact absurd h (by simp)
      · rename_i irs2 σ2 htl
        simp only [Option.some.injEq, MTIResult.ok.injEq] at h
        obtain ⟨rfl, rfl⟩ := h
        exact ⟨dec, hdec, hok, htl⟩
    · exact absurd h (by simp)

theorem type_info_ok {env : Env} {fuel : Nat} {t : PyType} {protocol : ProtoSel}
    {ir : TypeIR} {σ : TState}
    (h : type_info env fuel t protocol = some (.ok ir σ)) :
    ∃ irs, multi_type_info env fuel [t] protocol = some (.ok irs σ) ∧ irs[0]? = some ir := by
  simp only [type_info] at h
  split at h
  · exact absurd h (by simp)
  · exact absurd h (by simp)
  · exact absurd h (by simp)
  · rename_i irs σ2 hmti
    split at h
    · rename_i ir0 hget
      simp only [Option.some.injEq, TIResult.ok.injEq] at h
      obtain ⟨rfl, rfl⟩ := h
      exact ⟨irs, hmti, hget⟩
    · exact absurd h (by simp)

theorem IRM_many_get {env : Env} {cache : List (Nat × Nat)} :
    ∀ {irs : List TypeIR} {ts : List PyType}, IRM env cache (.many irs ts) →
      irs.length = ts.length ∧
        ∀ k (h1 : k < irs.length) (h2 : k < ts.length),
          IRM env cache (.one irs[k] ts[k]) := by
  intro irs ts h
  induction ts generalizing irs with
  | nil =>
    cases h
    exact ⟨rfl, fun k h1 h2 => absurd h2 (by simp)⟩
  | cons t rest ih =>
    cases h with
    | manyConsM hhd htl =>
      rename_i ir irs2
      obtain ⟨hlen, helem⟩ := ih htl
      refine ⟨by simp [hlen], ?_⟩
      intro k h1 h2
      cases k with
      | zero => exact hhd
      | succ k =>
        simp only [List.getElem_cons_succ]
        exact helem k (by simpa using h1) (by simpa using h2)

theorem multi_ok_invar {env : Env} {fuel : Nat} {types : List PyType}
    {protocol : ProtoSel} {irs : List TypeIR} {σf : TState}
    (h : multi_type_info env fuel types protocol = some (.ok irs σf)) :
    Invar env σf ∧ IRM env σf.cache (.many irs types) := by
  obtain ⟨dec, hdec, hok, htl⟩ := multi_type_info_ok h
  obtain ⟨hstep, hPO, hmany⟩ :=
    (transOK env fuel).2.2.2.2.1 [] ⟨[], []⟩ types irs σf (Invar_empty env) htl
  exact ⟨hPO, hmany⟩

/-- Example struct with a single int field. -/
def intFieldStruct : StructClass :=
  ⟨["x"], ["x"], [], [("x", .intT)], none, none, false, false⟩

/-- Example struct whose field references class 0. -/
def refFieldStruct : StructClass :=
  ⟨["y"], ["y"], [], [("y", .classT 0)], none, none, false, false⟩

/-- Example environment with two structs, the second referencing the
first (so a batch shares cached nodes across elements). -/
def envPair : Env := [(0, .structDecl intFieldStruct), (1, .structDecl refFieldStruct)]

/-- C1: for every type descriptor and protocol selector, the single-type
entry point returns exactly the IR node the batch entry point returns as
its sole element when called with the one-element batch; and for every
batch, the batch entry point returns one IR node per descriptor in the
same order, each of which — read through the returned heap — is
observationally identical at every unfolding depth to the node an
independent single-type call produces for the same descriptor. -/
theorem type_info_multi_type_info_agree (env : Env) :
    (∀ fuel t protocol irs σ,
      multi_type_info env fuel [t] protocol = some (.ok irs σ) →
      ∃ ir, irs = [ir] ∧ type_info env fuel t protocol = some (.ok ir σ)) ∧
    (∀ fuel types protocol irs σf,
      multi_type_info env fuel types protocol = some (.ok irs σf) →
      irs.length = types.length ∧
        ∀ k (hk : k < types.length) (hk2 : k < irs.length) fuel2 ir2 σ2,
          type_info env fuel2 types[k] protocol = some (.ok ir2 σ2) →
          ∀ n, unfoldIR σf.arena n irs[k] = unfoldIR σ2.arena n ir2) := by
  constructor
  · intro fuel t protocol irs σ h
    obtain ⟨dec, hdec, hok, htl⟩ := multi_type_info_ok h
    obtain ⟨hlen, -⟩ := translateList_elem htl
    simp only [List.length_singleton] at hlen
    cases irs with
    | nil => simp at hlen
    | cons ir rest =>
      have hrest : rest = [] := by
        cases rest with
        | nil => rfl
        | cons a b => simp at hlen
      subst hrest
      refine ⟨ir, rfl, ?_⟩
      simp [type_info, h]
  · intro fuel types protocol irs σf hmti
    obtain ⟨hInvf, hmanyf⟩ := multi_ok_invar hmti
    obtain ⟨hlenf, hgetf⟩ := IRM_many_get hmanyf
    refine ⟨hlenf, ?_⟩
    intro k hk hk2 fuel2 ir2 σ2 hti n
    obtain ⟨irs2, hmti2, hget2⟩ := type_info_ok hti
    obtain ⟨hInv2, hmany2⟩ := multi_ok_invar hmti2
    obtain ⟨hlen2, hget2e⟩ := IRM_many_get hmany2
    simp only [List.length_singleton] at hlen2
    have h0 : 0 < irs2.length := by omega
    have hir2 : irs2[0] = ir2 := by
      rw [List.getElem?_eq_getElem h0] at hget2
      exact Option.some.inj hget2
    have hone2 : IRM env σ2.cache (.one ir2 types[k]) := by
      have := hget2e 0 h0 (by simp)
      rwa [hir2, List.getElem_singleton] at this
    have hone1 : IRM env σf.cache (.one irs[k] types[k]) := hgetf k hk2 hk
    exact IRM_congr env n σf σ2 hInvf hInv2 _ hone1 ir2 hone2

/-- Completed arena node for `intFieldStruct`. -/
def pairNode0 : ObjNode :=
  ⟨0, .structD none none false false,
    [⟨"x", "x", .intIR none none none none none, true, .unset, .unset⟩]⟩

/-- Completed arena node for `refFieldStruct` in the batch run, where
class 0 sits at slot 0. -/
def pairNode1 : ObjNode :=
  ⟨1, .structD none none false false, [⟨"y", "y", .ref 0, true, .unset, .unset⟩]⟩

/-- Completed arena node for `refFieldStruct` in an independent run of
class 1 alone, where class 0 sits at slot 1. -/
def pairNode1x : ObjNode :=
  ⟨1, .structD none none false false, [⟨"y", "y", .ref 1, true, .unset, .unset⟩]⟩

theorem type_info_multi_type_info_agree_witness :
    unfoldIR [pairNode0, pairNode1] 3 (.ref 1) =
    unfoldIR [pairNode1x, pairNode0] 3 (.ref 0) :=
  ((type_info_multi_type_info_agree envPair).2 10 [.classT 0, .classT 1] .noneP
    [.ref 0, .ref 1] ⟨[(1, 1), (0, 0)], [pairNode0, pairNode1]⟩ rfl).2
    1 (by decide) (by decide) 12 (.ref 0)
    ⟨[(0, 1), (1, 0)], [pairNode1x, pairNode0]⟩ rfl 3

/-- C2: the protocol compatibility gate (decoder construction for the
synthetic tuple of all root types, modelled from the spec) is
all-or-nothing: if any root type of the batch is unsupported under the
selected decoder family, the whole call raises the Unsupported-type
error and no IR is produced for any element. -/
theorem gate_all_or_nothing (env : Env) (fuel : Nat) (types : List PyType)
    (protocol : ProtoSel) (dec : DecKind)
    (hdec : protocolDecoder protocol = some dec)
    (hbad : ∃ t ∈ types, typeSupported dec t = false) :
    multi_type_info env fuel types protocol = some .unsupported ∧
      ∀ irs σ, multi_type_info env fuel types protocol ≠ some (.ok irs σ) := by
  have hko : decoderOK dec types = false := by
    obtain ⟨t, hmem, hf⟩ := hbad
    cases hall : decoderOK dec types with
    | false => rfl
    | true =>
      simp only [decoderOK, List.all_eq_true] at hall
      rw [hall t hmem] at hf
      exact Bool.noConfusion hf
  have : multi_type_info env fuel types protocol = some .unsupported := by
    simp [multi_type_info, hdec, hko]
  exact ⟨this, fun irs σ h => by rw [this] at h; exact MTIResult.noConfusion (Option.some.inj h)⟩

theorem gate_all_or_nothing_witness :
    multi_type_info [] 1 [PyType.dictT (some (.listT none, .intT))] .jsonP =
      some .unsupported ∧
    ∀ irs σ, multi_type_info [] 1 [PyType.dictT (some (.listT none, .intT))] .jsonP ≠
      some (.ok irs σ) :=
  gate_all_or_nothing [] 1 [PyType.dictT (some (.listT none, .intT))] .jsonP
    .jsonDec rfl ⟨PyType.dictT (some (.listT none, .intT)), by simp, rfl⟩

/-- C10: the unset/generic protocol selector (`None`) selects exactly
the same decoder construction as the `"msgpack"` selector, so the two
selectors produce identical outcomes — gate verdict and IR alike — for
every environment, fuel, and batch. -/
theorem protocol_none_eq_msgpack (env : Env) (fuel : Nat) (types : List PyType) :
    multi_type_info env fuel types .noneP = multi_type_info env fuel types .msgpackP ∧
    protocolDecoder .noneP = protocolDecoder .msgpackP := by
  exact ⟨rfl, rfl⟩

/-- A struct whose single field's declared type is the struct itself. -/
def selfRefStruct : StructClass :=
  ⟨["x"], ["x"], [], [("x", .classT 0)], none, none, false, false⟩

/-- Environment containing only the self-referential struct as class 0. -/
def selfRefEnv : Env := [(0, .structDecl selfRefStruct)]

/-- C3: for an object-like class already in the per-run cache, the very
same node (same arena reference) is returned with the state untouched;
for a class not yet seen, a placeholder node with an empty field list is
registered in the cache keyed by class identity *before* the field types
are recursively translated, and the returned reference is that
placeholder's slot; hence the self-referential struct translates with
finite fuel and its field's type node is identity-equal (same arena
slot) to the root node. -/
theorem object_cache_placeholder_identity :
    (∀ (env : Env) (f : Nat) (σ : TState) (c : Nat) (data : ObjData)
        (skel : List FieldSkel) (i : Nat),
      nlookup σ.cache c = some i →
      translateObj env (f + 1) σ c data skel = some (.ref i, σ)) ∧
    (∀ (env : Env) (f : Nat) (σ : TState) (c : Nat) (data : ObjData)
        (skel : List FieldSkel) (out : TypeIR) (σ' : TState),
      nlookup σ.cache c = none →
      translateObj env (f + 1) σ c data skel = some (out, σ') →
      ∃ flds σ₂,
        translateFields env f
          ⟨(c, σ.arena.length) :: σ.cache, σ.arena ++ [⟨c, data, []⟩]⟩ skel =
            some (flds, σ₂) ∧
        out = .ref σ.arena.length ∧
        σ' = ⟨σ₂.cache, σ₂.arena.set σ.arena.length ⟨c, data, flds⟩⟩) ∧
    translate selfRefEnv 10 ⟨[], []⟩ (.classT 0) =
      some (.ref 0, ⟨[(0, 0)],
        [⟨0, .structD none none false false,
          [⟨"x", "x", .ref 0, true, .unset, .unset⟩]⟩]⟩) := by
  refine ⟨?_, ?_, rfl⟩
  · intro env f σ c data skel i hc
    simp [translateObj, hc]
  · intro env f σ c data skel out σ' hc htr
    simp only [translateObj, hc] at htr
    split at htr
    · exact absurd htr (by simp)
    · rename_i flds σ₂ htf
      simp only [Option.some.injEq, Prod.mk.injEq] at htr
      obtain ⟨rfl, rfl⟩ := htr
      exact ⟨flds, σ₂, htf, rfl, rfl⟩

theorem object_cache_placeholder_identity_witness :
    translateObj selfRefEnv 1 ⟨[(0, 5)], []⟩ 0 ObjData.typeddictD [] =
      some (.ref 5, ⟨[(0, 5)], []⟩) :=
  object_cache_placeholder_identity.1 selfRefEnv 0 ⟨[(0, 5)], []⟩ 0 .typeddictD [] 5 rfl

theorem insertionSortInt_perm_congr {l₁ l₂ : List Int} (h : l₁.Perm l₂) :
    List.insertionSort (fun a b : Int => a ≤ b) l₁ =
      List.insertionSort (fun a b : Int => a ≤ b) l₂ :=
  List.eq_of_perm_of_sorted
    ((List.perm_insertionSort _ _).trans (h.trans (List.perm_insertionSort _ _).symm))
    (List.sorted_insertionSort _ _) (List.sorted_insertionSort _ _)

theorem insertionSortStr_perm_congr {l₁ l₂ : List String} (h : l₁.Perm l₂) :
    List.insertionSort (fun a b : String => a ≤ b) l₁ =
      List.insertionSort (fun a b : String => a ≤ b) l₂ :=
  List.eq_of_perm_of_sorted
    ((List.perm_insertionSort _ _).trans (h.trans (List.perm_insertionSort _ _).symm))
    (List.sorted_insertionSort _ _) (List.sorted_insertionSort _ _)

/-- C4: a homogeneous `Literal` stores its values sorted, so any two
declaration orders of the same value multiset yield identical Literal IR
nodes, for both the all-int and the all-str kinds. -/
theorem literal_declaration_order_irrelevant :
    (∀ (env : Env) (f : Nat) (σ : TState) (vals₁ vals₂ : List Int), vals₁.Perm vals₂ →
      translate env f σ (.litIntT vals₁) = translate env f σ (.litIntT vals₂)) ∧
    (∀ (env : Env) (f : Nat) (σ : TState) (vals₁ vals₂ : List String), vals₁.Perm vals₂ →
      translate env f σ (.litStrT vals₁) = translate env f σ (.litStrT vals₂)) := by
  constructor
  · intro env f σ vals₁ vals₂ hperm
    cases f with
    | zero => simp [translate]
    | succ f =>
      cases f with
      | zero => simp [translate, translateInner, originArgsMetadata]
      | succ g =>
        simp only [translate, translateInner, originArgsMetadata, foldConstrs,
          foldMetaExtras, List.foldl_nil]
        rw [insertionSortInt_perm_congr hperm]
  · intro env f σ vals₁ vals₂ hperm
    cases f with
    | zero => simp [translate]
    | succ f =>
      cases f with
      | zero => simp [translate, translateInner, originArgsMetadata]
      | succ g =>
        simp only [translate, translateInner, originArgsMetadata, foldConstrs,
          foldMetaExtras, List.foldl_nil]
        rw [insertionSortStr_perm_congr hperm]

theorem literal_declaration_order_irrelevant_witness :
    translate [] 2 ⟨[], []⟩ (.litIntT [3, 1, 2]) =
      translate [] 2 ⟨[], []⟩ (.litIntT [1, 2, 3]) :=
  literal_declaration_order_irrelevant.1 [] 2 ⟨[], []⟩ [3, 1, 2] [1, 2, 3] (by decide)

/-- C5: the extra-schema payloads of stacked `Meta` annotations are
deep-merged in order (on key collision dict values merge recursively,
sequence values concatenate, scalar values are overwritten by the later
annotation), the free-form extra dict is shallow-updated, and the
translated node is wrapped in a `Metadata` node iff at least one
accumulated payload is non-empty, an absent payload being stored as
`None` rather than an empty dict. -/
theorem metadata_merge_and_wrap :
    (∀ (a b : List (String × JVal)) (k : String) (av bv : JVal),
      (b.map Prod.fst).Nodup → slookup a k = some av → slookup b k = some bv →
      slookup (mergeJsonObj a b) k = some (mergeJsonVal av bv)) ∧
    (∀ (a b : List (String × JVal)) (k : String),
      slookup b k = none → slookup (mergeJsonObj a b) k = slookup a k) ∧
    (∀ (a b : List (String × JVal)) (k : String) (bv : JVal),
      (b.map Prod.fst).Nodup → slookup a k = none → slookup b k = some bv →
      slookup (mergeJsonObj a b) k = some bv) ∧
    (∀ ao bo : List (String × JVal),
      mergeJsonVal (.jobj ao) (.jobj bo) = .jobj (mergeJsonObj ao bo)) ∧
    (∀ xs ys : List JVal, mergeJsonVal (.jarr xs) (.jarr ys) = .jarr (xs ++ ys)) ∧
    (∀ x y : Int, mergeJsonVal (.jnum x) (.jnum y) = .jnum y) ∧
    (∀ x y : String, mergeJsonVal (.jstr x) (.jstr y) = .jstr y) ∧
    (∀ (metas : List MetaAnn) (m : MetaAnn),
      foldMetaExtras (metas ++ [m]) = applyMetaExtras (foldMetaExtras metas) m) ∧
    (∀ (a b : List (String × PyVal)) (k : String) (bv : PyVal),
      (b.map Prod.fst).Nodup → slookup b k = some bv →
      slookup (supdate a b) k = some bv) ∧
    (∀ (a b : List (String × PyVal)) (k : String),
      slookup b k = none → slookup (supdate a b) k = slookup a k) ∧
    (∀ (env : Env) (f : Nat) (σ : TState) (t : PyType) (out₀ : TypeIR) (σ' : TState),
      translateInner env f σ (originArgsMetadata t).1
          (foldConstrs (originArgsMetadata t).2) = some (out₀, σ') →
      foldMetaExtras (originArgsMetadata t).2 = ([], []) →
      translate env (f + 1) σ t = some (out₀, σ')) ∧
    (∀ (env : Env) (f : Nat) (σ : TState) (t : PyType) (out₀ : TypeIR) (σ' : TState)
        (ejs : List (String × JVal)) (ex : List (String × PyVal)),
      translateInner env f σ (originArgsMetadata t).1
          (foldConstrs (originArgsMetadata t).2) = some (out₀, σ') →
      foldMetaExtras (originArgsMetadata t).2 = (ejs, ex) →
      (ejs, ex) ≠ ([], []) →
      translate env (f + 1) σ t =
        some (.metadataIR out₀ (toOptList ejs) (toOptList ex), σ')) ∧
    toOptList ([] : List (String × JVal)) = none := by
  refine ⟨fun a b k av bv => mergeJsonObj_both, fun a b k => mergeJsonObj_not_key,
    fun a b k bv => mergeJsonObj_new, fun ao bo => by simp [mergeJsonVal],
    fun xs ys => by simp [mergeJsonVal], fun x y => by simp [mergeJsonVal],
    fun x y => by simp [mergeJsonVal], ?_, fun a b k bv => supdate_hit,
    fun a b k => supdate_miss, ?_, ?_, rfl⟩
  · intro metas m
    simp [foldMetaExtras, List.foldl_append]
  · intro env f σ t out₀ σ' hti hee
    simp [translate, hti, hee]
  · intro env f σ t out₀ σ' ejs ex hti hee hne
    simp only [translate, hti, hee]
    cases ejs with
    | nil =>
      cases ex with
      | nil => exact absurd rfl hne
      | cons x xs => rfl
    | cons e es =>
      cases ex with
      | nil => rfl
      | cons x xs => rfl

theorem metadata_merge_and_wrap_witness :
    slookup (mergeJsonObj [("k", JVal.jnum 1)] [("k", JVal.jnum 2)]) "k" =
      some (mergeJsonVal (JVal.jnum 1) (JVal.jnum 2)) :=
  metadata_merge_and_wrap.1 [("k", JVal.jnum 1)] [("k", JVal.jnum 2)] "k"
    (JVal.jnum 1) (JVal.jnum 2) (by decide) rfl rfl

@[simp]
theorem metaOverride_none {α : Type} (x : Option α) : metaOverride x none = x := by
  cases x <;> rfl

/-- C6: constraints irrelevant to the matched dispatch arm are silently
discarded: a numeric-bound annotation on `int` lands in the matching
`IntType` constraint fields, the same annotation on `str` is ignored
without error (all string constraint fields stay unset), and bare
primitives with no annotations yield nodes whose constraint fields are
all unset. -/
theorem constraints_irrelevant_discarded :
    (∀ (env : Env) (f : Nat) (σ : TState) (ge gt le lt mo : Option Int),
      translate env (f + 2) σ
          (.annotated .intT [{ ge := ge, gt := gt, le := le, lt := lt, multiple_of := mo }]) =
        some (.intIR gt ge lt le mo, σ)) ∧
    (∀ (env : Env) (f : Nat) (σ : TState) (ge gt le lt mo : Option Int),
      translate env (f + 2) σ
          (.annotated .strT [{ ge := ge, gt := gt, le := le, lt := lt, multiple_of := mo }]) =
        some (.strIR none none none, σ)) ∧
    (∀ (env : Env) (f : Nat) (σ : TState),
      translate env (f + 2) σ .intT = some (.intIR none none none none none, σ)) ∧
    (∀ (env : Env) (f : Nat) (σ : TState),
      translate env (f + 2) σ .floatT = some (.floatIR none none none none none, σ)) ∧
    (∀ (env : Env) (f : Nat) (σ : TState),
      translate env (f + 2) σ .strT = some (.strIR none none none, σ)) ∧
    (∀ (env : Env) (f : Nat) (σ : TState),
      translate env (f + 2) σ .bytesT = some (.bytesIR none none, σ)) ∧
    (∀ (env : Env) (f : Nat) (σ : TState),
      translate env (f + 2) σ .boolT = some (.boolIR, σ)) ∧
    (∀ (env : Env) (f : Nat) (σ : TState),
      translate env (f + 2) σ .datetimeT = some (.datetimeIR none, σ)) := by
  refine ⟨?_, ?_, ?_, ?_, ?_, ?_, ?_, ?_⟩ <;>
    intro env f σ <;>
    first
      | (intro ge gt le lt mo
         simp [translate, translateInner, originArgsMetadata, foldConstrs,
           applyMetaConstrs, foldMetaExtras, applyMetaExtras])
      | simp [translate, translateInner, originArgsMetadata, foldConstrs,
          foldMetaExtras]

theorem isNoneTypeIR_iff (ir : TypeIR) : isNoneTypeIR ir = true ↔ ir = .noneIR := by
  cases ir <;> simp [isNoneTypeIR]

/-- C7: a union's member list matches the declaration order of its
arguments (member `k` is the translation of argument `k`, and the member
tuple is the sequential translation of the argument list); and
`includes_none` reports true exactly when the member list contains the
`NoneType` node, which a none-type member carrying constraint-metadata
annotations (the nine constraint attributes) still produces, since the
constraint attributes alone never create a `Metadata` wrapper. -/
theorem union_order_and_includes_none :
    (∀ (env : Env) (f : Nat) (σ : TState) (args : List PyType) (ts : List TypeIR)
        (σ' : TState),
      translate env (f + 2) σ (.unionT args) = some (.unionIR ts, σ') →
      translateList env f σ args = some (ts, σ') ∧
      ts.length = args.length ∧
        ∀ k (h1 : k < args.length) (h2 : k < ts.length),
          ∃ g σa σb, translate env g σa args[k] = some (ts[k], σb)) ∧
    (∀ ts : List TypeIR, includes_none ts = true ↔ .noneIR ∈ ts) ∧
    (∀ (env : Env) (f : Nat) (σ : TState) (ge gt le lt mo mnl mxl : Option Int)
        (pat : Option String) (tz : Option Bool),
      translate env (f + 2) σ
          (.annotated .noneT
            [{ ge := ge, gt := gt, le := le, lt := lt, multiple_of := mo,
               pattern := pat, min_length := mnl, max_length := mxl, tz := tz }]) =
        some (.noneIR, σ)) ∧
    translate [] 10 ⟨[], []⟩
        (.unionT [.annotated .noneT [{ ge := some 1 }], .intT]) =
      some (.unionIR [.noneIR, .intIR none none none none none], ⟨[], []⟩) ∧
    includes_none [.noneIR, .intIR none none none none none] = true ∧
    translate [] 10 ⟨[], []⟩ (.unionT [.intT, .strT]) =
      some (.unionIR [.intIR none none none none none, .strIR none none none], ⟨[], []⟩) ∧
    includes_none [.intIR none none none none none, .strIR none none none] = false := by
  refine ⟨?_, ?_, ?_, rfl, rfl, rfl, rfl⟩
  · intro env f σ args ts σ' htr
    simp only [translate, translateInner, originArgsMetadata, foldConstrs,
      foldMetaExtras, List.foldl_nil] at htr
    split at htr
    · exact absurd htr (by simp)
    · rename_i out0 σ₀ hmid
      split at hmid
      · exact absurd hmid (by simp)
      · rename_i ts0 σ₂ htl
        simp only [Option.some.injEq, Prod.mk.injEq] at hmid htr
        obtain ⟨rfl, rfl⟩ := hmid
        obtain ⟨hts, rfl⟩ := htr
        simp only [TypeIR.unionIR.injEq] at hts
        subst hts
        obtain ⟨hlen, helem⟩ := translateList_elem htl
        exact ⟨htl, hlen, helem⟩
  · intro ts
    simp only [includes_none, List.any_eq_true]
    constructor
    · rintro ⟨ir, hmem, hir⟩
      rw [(isNoneTypeIR_iff ir).mp hir] at hmem
      exact hmem
    · intro hmem
      exact ⟨.noneIR, hmem, rfl⟩
  · intro env f σ ge gt le lt mo mnl mxl pat tz
    simp [translate, translateInner, originArgsMetadata, foldConstrs,
      applyMetaConstrs, foldMetaExtras, applyMetaExtras]

theorem union_order_and_includes_none_witness :
    translateList [] 4 ⟨[], []⟩ [PyType.intT, PyType.strT] =
      some ([.intIR none none none none none, .strIR none none none], ⟨[], []⟩) ∧
    includes_none [TypeIR.noneIR] = true :=
  ⟨(union_order_and_includes_none.1 [] 4 ⟨[], []⟩ [.intT, .strT]
      [.intIR none none none none none, .strIR none none none] ⟨[], []⟩ rfl).1,
   (union_order_and_includes_none.2.1 [TypeIR.noneIR]).mpr (by simp)⟩

/-- C8: for every field of a struct-kind record, `required` holds iff
the field's default slot is the no-default sentinel; a declared
default-factory sets `default_factory` and leaves `default` unset; a
plain default sets `default` and leaves `default_factory` unset; with no
default both stay unset and `required` is true.  The skeleton is the zip
of the struct's field names, encode names and sentinel-padded defaults,
and the built `Field` records copy the skeleton's flags verbatim. -/
theorem struct_field_required_defaults :
    (∀ d : StructClass,
      structFieldSkel d =
        mkStructSkel d.hints
          (zip3 d.struct_fields d.struct_encode_fields
            (List.replicate (d.struct_fields.length - d.struct_defaults.length)
              DefaultObj.nodefault ++ d.struct_defaults))) ∧
    (∀ (hints : List (String × PyType)) (l : List (String × String × DefaultObj))
        (skel : List FieldSkel),
      mkStructSkel hints l = some skel →
      skel.length = l.length ∧
        ∀ k (h1 : k < skel.length) (h2 : k < l.length),
          skel[k].name = l[k].1 ∧ skel[k].encode_name = l[k].2.1 ∧
          (skel[k].required = true ↔ l[k].2.2 = DefaultObj.nodefault) ∧
          (l[k].2.2 = DefaultObj.nodefault →
            skel[k].default = .unset ∧ skel[k].default_factory = .unset) ∧
          (∀ fid, l[k].2.2 = DefaultObj.factory fid →
            skel[k].required = false ∧ skel[k].default = .unset ∧
            skel[k].default_factory = .val fid) ∧
          (∀ v, l[k].2.2 = DefaultObj.value v →
            skel[k].required = false ∧ skel[k].default = .val v ∧
            skel[k].default_factory = .unset)) ∧
    (∀ (env : Env) (f : Nat) (σ : TState) (skel : List FieldSkel)
        (flds : List Field) (σ' : TState),
      translateFields env f σ skel = some (flds, σ') →
      flds.length = skel.length ∧
        ∀ k (h1 : k < flds.length) (h2 : k < skel.length),
          flds[k].required = skel[k].required ∧ flds[k].default = skel[k].default ∧
          flds[k].default_factory = skel[k].default_factory) := by
  refine ⟨fun d => rfl, ?_, ?_⟩
  · intro hints l skel h
    induction l generalizing skel with
    | nil =>
      simp only [mkStructSkel, Option.some.injEq] at h
      subst h
      exact ⟨rfl, fun k h1 h2 => absurd h2 (by simp)⟩
    | cons e rest ih =>
      obtain ⟨name, enc, dob⟩ := e
      simp only [mkStructSkel] at h
      split at h
      · exact absurd h (by simp)
      · rename_i ty hty
        split at h
        · exact absurd h (by simp)
        · rename_i out hout
          cases dob with
          | nodefault =>
            simp only [Option.some.injEq] at h
            subst h
            obtain ⟨hlen, helem⟩ := ih out hout
            refine ⟨by simp [hlen], ?_⟩
            intro k h1 h2
            cases k with
            | zero => simp
            | succ k =>
              simp only [List.getElem_cons_succ]
              exact helem k (by simpa using h1) (by simpa using h2)
          | factory fid =>
            simp only [Option.some.injEq] at h
            subst h
            obtain ⟨hlen, helem⟩ := ih out hout
            refine ⟨by simp [hlen], ?_⟩
            intro k h1 h2
            cases k with
            | zero => simp
            | succ k =>
              simp only [List.getElem_cons_succ]
              exact helem k (by simpa using h1) (by simpa using h2)
          | value v =>
            simp only [Option.some.injEq] at h
            subst h
            obtain ⟨hlen, helem⟩ := ih out hout
            refine ⟨by simp [hlen], ?_⟩
            intro k h1 h2
            cases k with
            | zero => simp
            | succ k =>
              simp only [List.getElem_cons_succ]
              exact helem k (by simpa using h1) (by simpa using h2)
  · intro env f σ skel flds σ' h
    obtain ⟨hlen, helem⟩ := translateFields_info h
    exact ⟨hlen, fun k h1 h2 => ⟨(helem k h1 h2).2.2.1, (helem k h1 h2).2.2.2.1,
      (helem k h1 h2).2.2.2.2⟩⟩

theorem struct_field_required_defaults_witness :
    (mkStructSkel [("a", PyType.intT), ("b", PyType.intT), ("c", PyType.intT)]
      [("a", "a", DefaultObj.nodefault), ("b", "b", DefaultObj.factory 7),
       ("c", "c", DefaultObj.value (PyVal.intV 3))] =
      some [⟨"a", "a", .intT, true, .unset, .unset⟩,
            ⟨"b", "b", .intT, false, .unset, .val 7⟩,
            ⟨"c", "c", .intT, false, .val (PyVal.intV 3), .unset⟩]) ∧
    ([(⟨"a", "a", PyType.intT, true, .unset, .unset⟩ : FieldSkel),
      ⟨"b", "b", .intT, false, .unset, .val 7⟩,
      ⟨"c", "c", .intT, false, .val (PyVal.intV 3), .unset⟩].length = 3 ∧
     ([(⟨"a", "a", PyType.intT, true, .unset, .unset⟩ : FieldSkel),
       ⟨"b", "b", .intT, false, .unset, .val 7⟩,
       ⟨"c", "c", .intT, false, .val (PyVal.intV 3), .unset⟩][1].required = true ↔
        ([("a", "a", DefaultObj.nodefault), ("b", "b", DefaultObj.factory 7),
          ("c", "c", DefaultObj.value (PyVal.intV 3))][1]).2.2 = DefaultObj.nodefault)) := by
  constructor
  · rfl
  · refine ⟨?_, ?_⟩
    · exact (struct_field_required_defaults.2.1
        [("a", PyType.intT), ("b", PyType.intT), ("c", PyType.intT)]
        [("a", "a", DefaultObj.nodefault), ("b", "b", DefaultObj.factory 7),
         ("c", "c", DefaultObj.value (PyVal.intV 3))] _ rfl).1
    · exact ((struct_field_required_defaults.2.1
        [("a", PyType.intT), ("b", PyType.intT), ("c", PyType.intT)]
        [("a", "a", DefaultObj.nodefault), ("b", "b", DefaultObj.factory 7),
         ("c", "c", DefaultObj.value (PyVal.intV 3))] _ rfl).2 1 (by decide)
        (by decide)).2.2.1

instance : IsTotal (String × PyType) (fun a b : String × PyType => a.1 ≤ b.1) :=
  ⟨fun a b => le_total a.1 b.1⟩

instance : IsTrans (String × PyType) (fun a b : String × PyType => a.1 ≤ b.1) :=
  ⟨fun _ _ _ hab hbc => le_trans hab hbc⟩

/-- C9: a TypedDict's field list is ordered by field name ascending
(lexicographic), not declaration order; its name multiset is exactly the
hint names; every field's encode name equals its name and both defaults
stay unset; and `required` follows `__required_keys__` when present, and
otherwise the totality flag. -/
theorem typeddict_fields_sorted_required :
    (∀ d : TypedDictClass,
      List.Sorted (fun a b : String => a ≤ b)
        ((typeddictFieldSkel d).map FieldSkel.name) ∧
      ((typeddictFieldSkel d).map FieldSkel.name).Perm (d.hints.map Prod.fst) ∧
      ∀ fs ∈ typeddictFieldSkel d,
        fs.encode_name = fs.name ∧ fs.default = UnsetOr.unset ∧
        fs.default_factory = UnsetOr.unset ∧
        (∀ ks, d.required_keys = some ks → (fs.required = true ↔ fs.name ∈ ks)) ∧
        (d.required_keys = none → fs.required = d.total)) ∧
    (∀ (env : Env) (f : Nat) (σ : TState) (d : TypedDictClass)
        (flds : List Field) (σ' : TState),
      translateFields env f σ (typeddictFieldSkel d) = some (flds, σ') →
      flds.map Field.name = (typeddictFieldSkel d).map FieldSkel.name ∧
        ∀ k (h1 : k < flds.length) (h2 : k < (typeddictFieldSkel d).length),
          flds[k].encode_name = flds[k].name ∧ flds[k].default = UnsetOr.unset ∧
          flds[k].default_factory = UnsetOr.unset ∧
          flds[k].required = (typeddictFieldSkel d)[k].required) := by
  have hskel : ∀ (d : TypedDictClass) (fs : FieldSkel), fs ∈ typeddictFieldSkel d →
      fs.encode_name = fs.name ∧ fs.default = UnsetOr.unset ∧
      fs.default_factory = UnsetOr.unset ∧
      (∀ ks, d.required_keys = some ks → (fs.required = true ↔ fs.name ∈ ks)) ∧
      (d.required_keys = none → fs.required = d.total) := by
    intro d fs hmem
    simp only [typeddictFieldSkel, List.mem_map] at hmem
    obtain ⟨nt, hnt, rfl⟩ := hmem
    have hnt' : nt ∈ d.hints := (List.perm_insertionSort _ _).mem_iff.mp hnt
    refine ⟨rfl, rfl, rfl, ?_, ?_⟩
    · intro ks hks
      simp only [hks]
      simp [decide_eq_true_iff]
    · intro hnone
      simp only [hnone]
      cases htot : d.total with
      | true =>
        simp only [if_true]
        have : nt.1 ∈ d.hints.map Prod.fst := List.mem_map_of_mem Prod.fst hnt'
        simp [this]
      | false => simp
  constructor
  · intro d
    refine ⟨?_, ?_, hskel d⟩
    · have hs : List.Sorted (fun a b : String × PyType => a.1 ≤ b.1)
          (List.insertionSort (fun a b : String × PyType => a.1 ≤ b.1) d.hints) :=
        List.sorted_insertionSort _ _
      simp only [typeddictFieldSkel, List.map_map]
      simp only [List.Sorted, List.pairwise_map] at hs ⊢
      exact hs
    · have hp : (List.insertionSort (fun a b : String × PyType => a.1 ≤ b.1) d.hints).Perm
          d.hints := List.perm_insertionSort _ _
      simp only [typeddictFieldSkel, List.map_map]
      exact hp.map _
  · intro env f σ d flds σ' h
    obtain ⟨hlen, helem⟩ := translateFields_info h
    constructor
    · apply List.ext_getElem (by simp [hlen])
      intro i hi1 hi2
      simp only [List.getElem_map]
      have hif : i < flds.length := by simpa using hi1
      have his : i < (typeddictFieldSkel d).length := by simpa using hi2
      exact (helem i hif his).1
    · intro k h1 h2
      have hinfo := helem k h1 h2
      have hmem : (typeddictFieldSkel d)[k] ∈ typeddictFieldSkel d := List.getElem_mem h2
      have hfs := hskel d _ hmem
      refine ⟨?_, ?_, ?_, hinfo.2.2.1⟩
      · rw [hinfo.2.1, hinfo.1, hfs.1]
      · rw [hinfo.2.2.2.1, hfs.2.1]
      · rw [hinfo.2.2.2.2, hfs.2.2.1]

theorem typeddict_fields_sorted_required_witness :
    List.Sorted (fun a b : String => a ≤ b)
      ((typeddictFieldSkel ⟨[("b", .intT), ("a", .strT)], none, true⟩).map
        FieldSkel.name) :=
  (typeddict_fields_sorted_required.1 ⟨[("b", .intT), ("a", .strT)], none, true⟩).1

end Msgspec
